import Mathlib

/-!
Verification development for the tei-export-dioedb repository.

The two scripts under verification are `scripts/create-tei-file-single-transcript.py`
(TEI document assembly from token/tag/timing rows) and `scripts/generate-vertical.py`
(flattening assembled TEI documents into the tab-delimited vertical format).
Python values are embedded shallowly: database rows become structures with
`Option` fields (`None` ↦ `none`), Python dicts become insertion-ordered
association lists with overwrite-on-insert, timestamps are kept as their verbatim
string form (the cache serialises `timedelta` to `str`), and Python's `int`/`float`
parsing of timestamp components is modelled with exact decimal arithmetic
(`TimeQ` below; the orderings agree on the timestamp literals the scripts compare).
-/

namespace DioeTei

/-! ## Python string primitives used by the scripts -/

/-- Model of Python `s.replace(c, "")` for a one-character pattern: every
occurrence of the character is removed.  (`generate-vertical.py` only ever calls
`replace` with the one-character patterns `"#"` and `"\t"`.) -/
def pyDropChar (s : String) (c : Char) : String := ⟨s.data.filter (· ≠ c)⟩

/-- Model of Python `s.replace(c, r)` for a one-character pattern and
one-character replacement. -/
def pyMapChar (s : String) (c r : Char) : String :=
  ⟨s.data.map (fun x => if x = c then r else x)⟩

/-- Strip leading and trailing whitespace from a character list. -/
def stripChars (l : List Char) : List Char :=
  ((l.dropWhile Char.isWhitespace).reverse.dropWhile Char.isWhitespace).reverse

/-- Model of Python `s.strip()`: removes leading and trailing whitespace. -/
def pyStrip (s : String) : String := ⟨stripChars s.data⟩

/-- Split a character list at every character satisfying the predicate
(separators are consumed; empty pieces are kept, as in Python `str.split(sep)`). -/
def splitPred (p : Char → Bool) : List Char → List (List Char)
  | [] => [[]]
  | x :: xs =>
    if p x then [] :: splitPred p xs
    else
      match splitPred p xs with
      | h :: t => (x :: h) :: t
      | [] => [[x]]

/-- Model of Python `s.split(":")` for a one-character separator. -/
def pySplitChar (s : String) (c : Char) : List String :=
  (splitPred (· = c) s.data).map (fun l => (⟨l⟩ : String))

/-- Model of Python `s.split()` with no argument: split on whitespace runs,
dropping empty pieces. -/
def pySplitWs (s : String) : List String :=
  ((splitPred Char.isWhitespace s.data).map (fun l => (⟨l⟩ : String))).filter (· ≠ "")

/-- Model of Python `sep.join(l)`. -/
def joinSep (sep : String) : List String → String
  | [] => ""
  | [x] => x
  | x :: y :: xs => x ++ sep ++ joinSep sep (y :: xs)

/-- Model of Python `" ".join(l)`. -/
def joinSpace (l : List String) : String := joinSep " " l

/-- Model of Python `s.startswith(p)`. -/
def pyStartsWith (s p : String) : Bool := s.data.take p.data.length == p.data

/-- Model of Python `s.endswith(p)`. -/
def pyEndsWith (s p : String) : Bool := s.data.reverse.take p.data.length == p.data.reverse

/-- Model of Python `c in s` for a one-character needle. -/
def pyContains (s : String) (c : Char) : Bool := s.data.contains c

/-- Model of Python `s.lower()`. -/
def pyLower (s : String) : String := ⟨s.data.map Char.toLower⟩

/-- Model of the Python truthiness chain `a or d` for an optional string `a`:
`None` and `""` are falsy. -/
def orStrD (o : Option String) (d : String) : String :=
  match o with
  | some s => if s = "" then d else s
  | none => d

/-! ## Python dicts as insertion-ordered association lists -/

/-- Model of Python `d[k] = v`: overwrite in place if the key is present
(Python dicts keep the original position), else append. -/
def dinsert (m : List (String × α)) (k : String) (v : α) : List (String × α) :=
  if m.any (fun p => p.1 = k) then
    m.map (fun p => if p.1 = k then (k, v) else p)
  else m ++ [(k, v)]

/-- Dictionary lookup.  Keys built through `dinsert` are unique, so the first
match is the entry. -/
def dget? (m : List (String × α)) (k : String) : Option α :=
  (m.find? (fun p => p.1 = k)).map Prod.snd

/-- Model of Python `d.get(k, default)`. -/
def dgetD (m : List (String × α)) (k : String) (d : α) : α := (dget? m k).getD d

/-- Build a dict from a list of key/value pairs by repeated insertion. -/
def dictOf (l : List (String × α)) : List (String × α) :=
  l.foldl (fun m p => dinsert m p.1 p.2) []

/-! ## Data model: token rows and tag rows

A `Token` is one row of the token query of
`create-tei-file-single-transcript.py`, after the merge step of
`fetch_transcript_data` attached its `tags` and `tokenset_ids`.  `splemma` is
the possibly multi-valued lemma column; the scalar case is embedded as a
singleton list (the script only reads element 0 resp. the scalar itself). -/

/-- One row of the tags-and-answers query, as reshaped into `answer_data` by
`fetch_transcript_data` (the row's leading `token_id` is kept separately). -/
structure TagInfo where
  tag_reihung : Option Int
  tag_name : Option String
  tag_id : Option Int
  tag : Option String
  tag_gene : Option Int
deriving DecidableEq

/-- A fully merged token row. -/
structure Token where
  token_id : Nat
  ID_Inf_id : Int
  transcript_id_id : Option Int
  text_in_ortho : Option String
  ortho : Option String
  sppos : Option String
  splemma : List String
  start_time : Option String
  end_time : Option String
  token_reihung : Option Int
  tags : List TagInfo
  tokenset_ids : List Nat
deriving DecidableEq

/-- Displayed text of a token:
`token.get("text_in_ortho") or token.get("ortho") or ""`. -/
def displayedText (t : Token) : String := orStrD t.text_in_ortho (orStrD t.ortho "")

/-! ## Token classification (generate_transcript_file, lines 510-527) -/

/-- The five token kinds distinguished by the rendering branch of
`generate_transcript_file`. -/
inductive TokenKind where
  | pause (duration : String)
  | incident (desc : String)
  | unclear
  | punctuationMark
  | word
deriving DecidableEq

/-- Python `token_text[2:-2]`. -/
def innerContent (text : String) : String :=
  ⟨((text.data.drop 2).reverse.drop 2).reverse⟩

/-- The double-parenthesis test `token_text.startswith("((") and
token_text.endswith("))")`. -/
def isDoubleParen (text : String) : Bool :=
  pyStartsWith text "((" && pyEndsWith text "))"

/-- The classification branch of the rendering loop:
double-parenthesised text is a pause when the inner content contains `'s'`
and an incident otherwise; `"(?)"` is unclear; part-of-speech `PUNCT` is a
punctuation mark; everything else is a word. -/
def classify (text : String) (sppos : Option String) : TokenKind :=
  if isDoubleParen text then
    if pyContains (innerContent text) 's' then TokenKind.pause (innerContent text)
    else TokenKind.incident (innerContent text)
  else if text = "(?)" then TokenKind.unclear
  else if sppos = some "PUNCT" then TokenKind.punctuationMark
  else TokenKind.word

/-! ## Utterance segmentation (generate_transcript_file, lines 428-439) -/

/-- An utterance grouping: the running speaker id and the tokens collected for
it, mirroring the `current_utterance` dictionary. -/
structure Utterance where
  speaker : Int
  tokens : List Token
deriving DecidableEq

/-- One iteration of the grouping loop: on a speaker change flush the running
utterance (only if non-empty) and start a fresh one; otherwise append. -/
def segmentStep (acc : List Utterance × Utterance) (token : Token) :
    List Utterance × Utterance :=
  let utts := acc.1
  let cur := acc.2
  if token.ID_Inf_id ≠ cur.speaker then
    (if cur.tokens ≠ [] then utts ++ [cur] else utts, ⟨token.ID_Inf_id, [token]⟩)
  else
    (utts, ⟨cur.speaker, cur.tokens ++ [token]⟩)

/-- The trailing flush after the loop (`if current_utterance["tokens"]: append`). -/
def flushLast (s : List Utterance × Utterance) : List Utterance :=
  if s.2.tokens ≠ [] then s.1 ++ [s.2] else s.1

/-- Group an ordered token stream into utterances by contiguous-speaker runs;
the initial running utterance carries the first token's speaker and no tokens. -/
def segment : List Token → List Utterance
  | [] => []
  | t0 :: rest =>
    flushLast ((t0 :: rest).foldl segmentStep ([], ⟨t0.ID_Inf_id, []⟩))

/-! ### Segmentation lemmas -/

lemma segmentStep_ne (utts : List Utterance) (cur : Utterance) (t : Token)
    (h : t.ID_Inf_id ≠ cur.speaker) (hc : cur.tokens ≠ []) :
    segmentStep (utts, cur) t = (utts ++ [cur], ⟨t.ID_Inf_id, [t]⟩) := by
  simp [segmentStep, h, hc]

lemma segmentStep_ne_nil (utts : List Utterance) (cur : Utterance) (t : Token)
    (h : t.ID_Inf_id ≠ cur.speaker) (hc : cur.tokens = []) :
    segmentStep (utts, cur) t = (utts, ⟨t.ID_Inf_id, [t]⟩) := by
  simp [segmentStep, h, hc]

lemma segmentStep_eq (utts : List Utterance) (cur : Utterance) (t : Token)
    (h : t.ID_Inf_id = cur.speaker) :
    segmentStep (utts, cur) t = (utts, ⟨cur.speaker, cur.tokens ++ [t]⟩) := by
  simp [segmentStep, h]

lemma segment_foldl_join (rest : List Token) (utts : List Utterance) (cur : Utterance) :
    ((flushLast (rest.foldl segmentStep (utts, cur))).map Utterance.tokens).flatten
      = (utts.map Utterance.tokens).flatten ++ cur.tokens ++ rest := by
  induction rest generalizing utts cur with
  | nil =>
    by_cases h : cur.tokens = [] <;> simp [flushLast, h]
  | cons t rest ih =>
    rw [List.foldl_cons]
    by_cases hne : t.ID_Inf_id ≠ cur.speaker
    · by_cases hcur : cur.tokens = []
      · rw [segmentStep_ne_nil utts cur t hne hcur, ih]
        simp [hcur]
      · rw [segmentStep_ne utts cur t hne hcur, ih]
        simp [List.append_assoc]
    · push_neg at hne
      rw [segmentStep_eq utts cur t hne, ih]
      simp [List.append_assoc]

lemma segment_join (l : List Token) :
    ((segment l).map Utterance.tokens).flatten = l := by
  cases l with
  | nil => rfl
  | cons t rest =>
    have h := segment_foldl_join (t :: rest) [] ⟨t.ID_Inf_id, []⟩
    simpa [segment] using h

/-- The well-formedness each produced utterance satisfies. -/
def utteranceOK (u : Utterance) : Prop :=
  u.tokens ≠ [] ∧ ∀ t ∈ u.tokens, t.ID_Inf_id = u.speaker

lemma segment_foldl_ok (rest : List Token) (utts : List Utterance) (cur : Utterance)
    (h1 : ∀ u ∈ utts, utteranceOK u)
    (h2 : ∀ t ∈ cur.tokens, t.ID_Inf_id = cur.speaker) :
    ∀ u ∈ flushLast (rest.foldl segmentStep (utts, cur)), utteranceOK u := by
  induction rest generalizing utts cur with
  | nil =>
    intro u hu
    unfold flushLast at hu
    by_cases h : cur.tokens = []
    · simp [h] at hu; exact h1 u hu
    · simp [h] at hu
      rcases hu with hu | hu
      · exact h1 u hu
      · exact hu ▸ ⟨h, h2⟩
  | cons t rest ih =>
    rw [List.foldl_cons]
    by_cases hne : t.ID_Inf_id ≠ cur.speaker
    · by_cases hcur : cur.tokens = []
      · rw [segmentStep_ne_nil utts cur t hne hcur]
        refine ih _ _ h1 ?_
        intro x hx
        simp at hx
        simp [hx]
      · rw [segmentStep_ne utts cur t hne hcur]
        refine ih _ _ ?_ ?_
        · intro u hu
          simp at hu
          rcases hu with hu | hu
          · exact h1 u hu
          · exact hu ▸ ⟨hcur, h2⟩
        · intro x hx
          simp at hx
          simp [hx]
    · push_neg at hne
      rw [segmentStep_eq utts cur t hne]
      refine ih _ _ h1 ?_
      intro x hx
      simp at hx
      rcases hx with hx | hx
      · exact h2 x hx
      · simp [hx, hne]

lemma segment_ok (l : List Token) : ∀ u ∈ segment l, utteranceOK u := by
  cases l with
  | nil => intro u hu; simp [segment] at hu
  | cons t rest =>
    exact segment_foldl_ok (t :: rest) [] ⟨t.ID_Inf_id, []⟩ (by simp) (by simp)

lemma segment_foldl_chain (rest : List Token) (utts : List Utterance) (cur : Utterance)
    (h1 : List.Chain' (fun u v : Utterance => u.speaker ≠ v.speaker) (utts ++ [cur]))
    (h2 : cur.tokens = [] → utts = []) :
    List.Chain' (fun u v : Utterance => u.speaker ≠ v.speaker)
      (flushLast (rest.foldl segmentStep (utts, cur))) := by
  induction rest generalizing utts cur with
  | nil =>
    unfold flushLast
    by_cases h : cur.tokens = []
    · simp [h, h2 h]
    · simpa [h] using h1
  | cons t rest ih =>
    rw [List.foldl_cons]
    by_cases hne : t.ID_Inf_id ≠ cur.speaker
    · by_cases hcur : cur.tokens = []
      · rw [segmentStep_ne_nil utts cur t hne hcur]
        refine ih _ _ ?_ ?_
        · simp [h2 hcur]
        · intro h; simp at h
      · rw [segmentStep_ne utts cur t hne hcur]
        refine ih _ _ ?_ ?_
        · rw [List.chain'_append]
          refine ⟨h1, List.chain'_singleton _, ?_⟩
          intro x hx y hy
          simp [List.getLast?_concat] at hx
          simp at hy
          subst hx; subst hy
          simpa using fun h => hne h.symm
        · intro h; simp at h
    · push_neg at hne
      rw [segmentStep_eq utts cur t hne]
      refine ih _ _ ?_ ?_
      · rw [List.chain'_append] at h1 ⊢
        refine ⟨h1.1, List.chain'_singleton _, ?_⟩
        intro x hx y hy
        simp at hy
        subst hy
        exact h1.2.2 x hx cur (by simp)
      · intro h; simp at h

lemma segment_chain (l : List Token) :
    List.Chain' (fun u v : Utterance => u.speaker ≠ v.speaker) (segment l) := by
  cases l with
  | nil => simp [segment]
  | cons t rest =>
    exact segment_foldl_chain (t :: rest) [] ⟨t.ID_Inf_id, []⟩ (by simp) (by simp)

/-- A minimal token used for concrete scenarios. -/
def sampleToken (i : Nat) (spk : Int) : Token :=
  ⟨i, spk, none, some "tok", none, none, [], none, none, none, [], []⟩

/-- The four-token, speaker-sequence-`[1,1,2,1]` scenario. -/
def sampleSeq : List Token :=
  [sampleToken 1 1, sampleToken 2 1, sampleToken 3 2, sampleToken 4 1]

/-- C2: utterance segmentation is a lossless partition into contiguous
same-speaker runs: concatenating the produced utterances' tokens reproduces the
input in order, every utterance is non-empty with all tokens sharing its
speaker, adjacent utterances have distinct speakers (a new utterance starts
exactly at a speaker change, so non-contiguous same-speaker runs never merge),
and the speaker sequence `[1,1,2,1]` yields three utterances with speakers
`[1,1],[2],[1]`. -/
theorem segmentation_lossless_partition :
    (∀ l : List Token, ((segment l).map Utterance.tokens).flatten = l) ∧
    (∀ l : List Token, ∀ u ∈ segment l,
      u.tokens ≠ [] ∧ ∀ t ∈ u.tokens, t.ID_Inf_id = u.speaker) ∧
    (∀ l : List Token,
      List.Chain' (fun u v : Utterance => u.speaker ≠ v.speaker) (segment l)) ∧
    ((segment sampleSeq).map Utterance.speaker = [1, 2, 1] ∧
      (segment sampleSeq).map Utterance.tokens =
        [[sampleToken 1 1, sampleToken 2 1], [sampleToken 3 2], [sampleToken 4 1]]) :=
  ⟨segment_join, fun l => segment_ok l, segment_chain, by decide, by decide⟩

/-- Witness for C2 at a concrete input: the `[1,1,2,1]` list is reproduced by
concatenation and its first produced utterance is non-empty. -/
theorem segmentation_lossless_partition_witness :
    ((segment sampleSeq).map Utterance.tokens).flatten = sampleSeq ∧
    (⟨1, [sampleToken 1 1, sampleToken 2 1]⟩ : Utterance).tokens ≠ [] :=
  ⟨segmentation_lossless_partition.1 sampleSeq,
    (segmentation_lossless_partition.2.1 sampleSeq
      ⟨1, [sampleToken 1 1, sampleToken 2 1]⟩ (by decide)).1⟩

/-- C4: token classification is total and mutually exclusive (`classify` is a
function into the five-kind type, so exactly one kind is selected), follows the
priority order of the rendering branch, and classifies `"((2s))"` as a pause
with duration `"2s"`, not an incident. -/
theorem classification_total_priority (text : String) (sppos : Option String) :
    (∃! k : TokenKind, classify text sppos = k) ∧
    (isDoubleParen text = true →
      classify text sppos =
        (if pyContains (innerContent text) 's' then TokenKind.pause (innerContent text)
         else TokenKind.incident (innerContent text))) ∧
    (isDoubleParen text = false → text = "(?)" →
      classify text sppos = TokenKind.unclear) ∧
    (isDoubleParen text = false → text ≠ "(?)" →
      sppos = some "PUNCT" → classify text sppos = TokenKind.punctuationMark) ∧
    (isDoubleParen text = false → text ≠ "(?)" →
      sppos ≠ some "PUNCT" → classify text sppos = TokenKind.word) ∧
    classify "((2s))" sppos = TokenKind.pause "2s" := by
  refine ⟨⟨classify text sppos, rfl, fun k hk => hk.symm⟩, ?_, ?_, ?_, ?_, ?_⟩
  · intro h; simp [classify, h]
  · intro h h2; subst h2; simp [classify, h]
  · intro h h2 h3; simp [classify, h, h2, h3]
  · intro h h2 h3; simp [classify, h, h2, h3]
  · have hc : isDoubleParen "((2s))" = true := by decide
    have hi : innerContent "((2s))" = "2s" := by decide
    have hs : pyContains "2s" 's' = true := by decide
    simp [classify, hc, hi, hs]

/-- Witness for C4: the priority rules applied at concrete inputs — `"((2s))"`
is a pause, `"(?)"` is unclear, and a `PUNCT`-tagged plain text is a
punctuation mark. -/
theorem classification_total_priority_witness :
    classify "((2s))" none = TokenKind.pause "2s" ∧
    classify "(?)" (some "PUNCT") = TokenKind.unclear ∧
    classify "." (some "PUNCT") = TokenKind.punctuationMark :=
  ⟨(classification_total_priority "((2s))" none).2.2.2.2.2,
    (classification_total_priority "(?)" (some "PUNCT")).2.2.1 (by decide) rfl,
    (classification_total_priority "." (some "PUNCT")).2.2.2.1 (by decide) (by decide) rfl⟩

/-! ## Timestamp parsing (generate_transcript_file, time_to_seconds) -/

/-- Numeric value of a digit string. -/
def digitsVal (l : List Char) : Nat :=
  l.foldl (fun acc c => acc * 10 + (c.toNat - '0'.toNat)) 0

/-- Parse a non-empty all-digit character list. -/
def parseNatChars? (l : List Char) : Option Nat :=
  if l ≠ [] ∧ l.all Char.isDigit then some (digitsVal l) else none

/-- Model of Python `int(s)` on the strings reaching `time_to_seconds`:
an optional sign followed by digits; anything else raises (here: `none`). -/
def parseInt? (s : String) : Option Int :=
  match s.data with
  | '-' :: rest => (parseNatChars? rest).map (fun n => -(n : Int))
  | '+' :: rest => (parseNatChars? rest).map (fun n => (n : Int))
  | l => (parseNatChars? l).map (fun n => (n : Int))

/-- An exact decimal number `num / 10 ^ exp`, the embedding of the float
values computed by `time_to_seconds` (exact decimal arithmetic; the ordering
agrees with Python's float ordering on the timestamp literals the scripts
compare). -/
structure TimeQ where
  num : Int
  exp : Nat
deriving DecidableEq

/-- Numeric order on decimal values, by cross-multiplication. -/
def qLE (a b : TimeQ) : Bool := a.num * 10 ^ b.exp ≤ b.num * 10 ^ a.exp

/-- Strict numeric order on decimal values. -/
def qLT (a b : TimeQ) : Bool := a.num * 10 ^ b.exp < b.num * 10 ^ a.exp

/-- Numeric equality of decimal values. -/
def qEQv (a b : TimeQ) : Prop := a.num * 10 ^ b.exp = b.num * 10 ^ a.exp

instance (a b : TimeQ) : Decidable (qEQv a b) := by
  unfold qEQv
  infer_instance

/-- Model of Python `float(s)` on the strings reaching `time_to_seconds`: an
optional sign, digits with at most one decimal point, at least one digit
(exponent forms do not occur in timestamp fields). -/
def parseFloatQ? (s : String) : Option TimeQ :=
  let core : List Char → Option TimeQ := fun l =>
    match splitPred (· = '.') l with
    | [ip] => (parseNatChars? ip).map (fun n => ⟨(n : Int), 0⟩)
    | [ip, fp] =>
      if ip = [] ∧ fp = [] then none
      else if ip.all Char.isDigit ∧ fp.all Char.isDigit then
        some ⟨(digitsVal ip : Int) * 10 ^ fp.length + digitsVal fp, fp.length⟩
      else none
    | _ => none
  match s.data with
  | '-' :: rest => (core rest).map (fun q => ⟨-q.num, q.exp⟩)
  | '+' :: rest => core rest
  | l => core l

/-- `time_to_seconds` on a string timestamp: `"H:MM:SS[.frac]"` becomes
`H*3600 + MM*60 + SS.frac`; any parse failure or other shape yields `0`. -/
def time_to_seconds (s : String) : TimeQ :=
  match pySplitChar s ':' with
  | [h, m, sec] =>
    match parseInt? h, parseInt? m, parseFloatQ? sec with
    | some hh, some mm, some q => ⟨(hh * 3600 + mm * 60) * 10 ^ q.exp + q.num, q.exp⟩
    | _, _, _ => ⟨0, 0⟩
  | _ => ⟨0, 0⟩

/-- `time_to_seconds` lifted to the optional `start_time`/`end_time` fields
(`None` is neither a `timedelta` nor a `str`, so the Python function returns
`0.0`). -/
def timeSecondsOpt : Option String → TimeQ
  | some s => time_to_seconds s
  | none => ⟨0, 0⟩

lemma qLE_total (a b : TimeQ) : qLE a b = true ∨ qLE b a = true := by
  simp only [qLE, decide_eq_true_eq]
  exact le_total _ _

lemma qLE_trans (a b c : TimeQ) :
    qLE a b = true → qLE b c = true → qLE a c = true := by
  simp only [qLE, decide_eq_true_eq]
  intro h1 h2
  have hb : (0 : Int) < 10 ^ b.exp := pow_pos (by norm_num) _
  have hc : (0 : Int) ≤ 10 ^ c.exp := le_of_lt (pow_pos (by norm_num) _)
  have ha : (0 : Int) ≤ 10 ^ a.exp := le_of_lt (pow_pos (by norm_num) _)
  have h1c := mul_le_mul_of_nonneg_right h1 hc
  have h2a := mul_le_mul_of_nonneg_right h2 ha
  have hchain : a.num * 10 ^ c.exp * 10 ^ b.exp ≤ c.num * 10 ^ a.exp * 10 ^ b.exp := by
    calc a.num * 10 ^ c.exp * 10 ^ b.exp
        = a.num * 10 ^ b.exp * 10 ^ c.exp := by ring
      _ ≤ b.num * 10 ^ a.exp * 10 ^ c.exp := h1c
      _ = b.num * 10 ^ c.exp * 10 ^ a.exp := by ring
      _ ≤ c.num * 10 ^ b.exp * 10 ^ a.exp := h2a
      _ = c.num * 10 ^ a.exp * 10 ^ b.exp := by ring
  exact le_of_mul_le_mul_right hchain hb

lemma qLE_antisymm_val (a b : TimeQ) :
    qLE a b = true → qLE b a = true → qEQv a b := by
  simp only [qLE, qEQv, decide_eq_true_eq]
  exact fun h1 h2 => le_antisymm h1 h2

/-! ## Stable sorting (model of Python `sorted`) -/

/-- Stable insertion of `x` into a sorted list: `x` goes before the first
element it compares less-or-equal to, hence before later-arriving equals. -/
def insertSorted (le : α → α → Bool) (x : α) : List α → List α
  | [] => [x]
  | y :: ys => if le x y then x :: y :: ys else y :: insertSorted le x ys

/-- Model of Python's stable `sorted` under a total preorder `le` (in the
scripts, `le` always compares sort keys, so it is total and transitive). -/
def pySorted (le : α → α → Bool) : List α → List α
  | [] => []
  | x :: xs => insertSorted le x (pySorted le xs)

lemma insertSorted_perm (le : α → α → Bool) (x : α) (l : List α) :
    (insertSorted le x l).Perm (x :: l) := by
  induction l with
  | nil => simp [insertSorted]
  | cons y ys ih =>
    unfold insertSorted
    by_cases h : le x y
    · simp [h]
    · simp only [h, if_neg, Bool.false_eq_true, if_false]
      exact (ih.cons y).trans (List.Perm.swap x y ys)

lemma pySorted_perm (le : α → α → Bool) (l : List α) : (pySorted le l).Perm l := by
  induction l with
  | nil => simp [pySorted]
  | cons x xs ih => exact (insertSorted_perm le x (pySorted le xs)).trans (ih.cons x)

lemma insertSorted_pairwise (le : α → α → Bool)
    (htrans : ∀ a b c, le a b = true → le b c = true → le a c = true)
    (htot : ∀ a b, le a b = true ∨ le b a = true) (x : α) (l : List α)
    (h : l.Pairwise (fun a b => le a b = true)) :
    (insertSorted le x l).Pairwise (fun a b => le a b = true) := by
  induction l with
  | nil => simp [insertSorted]
  | cons y ys ih =>
    rw [List.pairwise_cons] at h
    unfold insertSorted
    by_cases hxy : le x y
    · simp only [hxy, if_pos]
      rw [List.pairwise_cons]
      refine ⟨?_, List.pairwise_cons.mpr h⟩
      intro b hb
      rcases List.mem_cons.mp hb with hb | hb
      · exact hb ▸ hxy
      · exact htrans x y b hxy (h.1 b hb)
    · simp only [hxy, Bool.false_eq_true, if_false]
      rw [List.pairwise_cons]
      refine ⟨?_, ih h.2⟩
      intro b hb
      have hb2 := (insertSorted_perm le x ys).mem_iff.mp hb
      rcases List.mem_cons.mp hb2 with hb2 | hb2
      · subst hb2
        rcases htot y b with hy | hy
        · exact hy
        · exact absurd hy (by simpa using hxy)
      · exact h.1 b hb2

lemma pySorted_pairwise (le : α → α → Bool)
    (htrans : ∀ a b c, le a b = true → le b c = true → le a c = true)
    (htot : ∀ a b, le a b = true ∨ le b a = true) (l : List α) :
    (pySorted le l).Pairwise (fun a b => le a b = true) := by
  induction l with
  | nil => simp [pySorted]
  | cons x xs ih => exact insertSorted_pairwise le htrans htot x _ ih

/-- A sorted list is determined by its multiset of elements when the order is
antisymmetric on those elements. -/
lemma sorted_perm_eq {R : α → α → Prop} :
    ∀ (l1 l2 : List α), l1.Perm l2 → l1.Pairwise R → l2.Pairwise R →
      (∀ a ∈ l1, ∀ b ∈ l1, R a b → R b a → a = b) → l1 = l2 := by
  intro l1
  induction l1 with
  | nil =>
    intro l2 h _ _ _
    exact h.nil_eq
  | cons a t1 ih =>
    intro l2 hperm hp1 hp2 hanti
    cases l2 with
    | nil => exact absurd hperm.symm.nil_eq (by simp)
    | cons b t2 =>
      by_cases hab : a = b
      · subst hab
        have ht := hperm.cons_inv
        have := ih t2 ht (List.pairwise_cons.mp hp1).2 (List.pairwise_cons.mp hp2).2
          (fun x hx y hy => hanti x (List.mem_cons_of_mem a hx) y (List.mem_cons_of_mem a hy))
        rw [this]
      · have ha2 : a ∈ t2 := by
          have : a ∈ b :: t2 := hperm.mem_iff.mp (List.mem_cons_self a t1)
          rcases List.mem_cons.mp this with h | h
          · exact absurd h hab
          · exact h
        have hb1 : b ∈ t1 := by
          have : b ∈ a :: t1 := hperm.symm.mem_iff.mp (List.mem_cons_self b t2)
          rcases List.mem_cons.mp this with h | h
          · exact absurd h.symm hab
          · exact h
        have hRab : R a b := (List.pairwise_cons.mp hp1).1 b hb1
        have hRba : R b a := (List.pairwise_cons.mp hp2).1 a ha2
        exact absurd (hanti a (List.mem_cons_self a t1) b (List.mem_cons_of_mem a hb1)
          hRab hRba) hab

/-! ## Timeline construction (generate_transcript_file, lines 415-426, 479-487) -/

/-- Model of Python `set.add`: sets are embedded as first-occurrence-ordered
duplicate-free lists (`sorted(list(s), key=...)` then orders them; with ties
under the key, CPython's set iteration order is unspecified, so this model
fixes one deterministic choice). -/
def addUnique (l : List String) (s : String) : List String :=
  if s ∈ l then l else l ++ [s]

/-- One token's contribution to the timestamp set: add `start_time`, then
`end_time`, each when present. -/
def collectStep (acc : List String) (t : Token) : List String :=
  match t.end_time with
  | some et => addUnique (match t.start_time with
      | some st => addUnique acc st
      | none => acc) et
  | none =>
    match t.start_time with
    | some st => addUnique acc st
    | none => acc

/-- All distinct timestamps of a token list, in first-occurrence order. -/
def collectTimes (tokens : List Token) : List String :=
  tokens.foldl collectStep []

/-- The numeric comparison used to sort timestamps. -/
def timeLE (a b : String) : Bool := qLE (time_to_seconds a) (time_to_seconds b)

/-- `sorted_times`: the distinct timestamps sorted ascending by
`time_to_seconds`. -/
def sortedTimes (tokens : List Token) : List String :=
  pySorted timeLE (collectTimes tokens)

/-- The identifier `f"TL_{i}"`. -/
def mkTlId (i : Nat) : String := "TL_" ++ toString i

/-- The pairs of the `time_to_id` dict comprehension, in insertion order. -/
def timeToIdPairs (tokens : List Token) : List (String × String) :=
  (sortedTimes tokens).enum.map (fun p => (p.2, mkTlId p.1))

/-- The `time_to_id` dict: timestamp value → timeline identifier. -/
def timeToId (tokens : List Token) : List (String × String) :=
  dictOf (timeToIdPairs tokens)

/-- The `<when>` entries of the timeline standoff section, in document order:
identifier and verbatim `absolute` value. -/
def timelinePairs (tokens : List Token) : List (String × String) :=
  (sortedTimes tokens).enum.map (fun p => (mkTlId p.1, p.2))

/-! ### Timestamp-collection lemmas -/

lemma mem_addUnique {l : List String} {s a : String} :
    a ∈ addUnique l s ↔ a ∈ l ∨ a = s := by
  unfold addUnique
  by_cases h : s ∈ l
  · simp only [h, if_pos]
    constructor
    · exact Or.inl
    · rintro (ha | rfl)
      · exact ha
      · exact h
  · simp [h]

lemma addUnique_nodup {l : List String} {s : String} (h : l.Nodup) :
    (addUnique l s).Nodup := by
  unfold addUnique
  by_cases hs : s ∈ l
  · simpa [hs]
  · simp [hs, List.nodup_append, h]

lemma mem_collectStep {acc : List String} {t : Token} {a : String} :
    a ∈ collectStep acc t ↔ a ∈ acc ∨ t.start_time = some a ∨ t.end_time = some a := by
  unfold collectStep
  rcases het : t.end_time with _ | et <;> rcases hst : t.start_time with _ | st <;>
    simp [mem_addUnique, het, hst] <;> tauto

lemma collectStep_nodup {acc : List String} {t : Token} (h : acc.Nodup) :
    (collectStep acc t).Nodup := by
  unfold collectStep
  rcases t.end_time with _ | et <;> rcases t.start_time with _ | st <;>
    first
      | exact h
      | exact addUnique_nodup h
      | exact addUnique_nodup (addUnique_nodup h)

lemma mem_collect_foldl (tokens : List Token) :
    ∀ (acc : List String) (a : String),
      a ∈ tokens.foldl collectStep acc ↔
        a ∈ acc ∨ ∃ t ∈ tokens, t.start_time = some a ∨ t.end_time = some a := by
  induction tokens with
  | nil => simp
  | cons t ts ih =>
    intro acc a
    rw [List.foldl_cons, ih]
    rw [mem_collectStep]
    constructor
    · rintro ((h | h) | ⟨u, hu, h⟩)
      · exact Or.inl h
      · exact Or.inr ⟨t, by simp, h⟩
      · exact Or.inr ⟨u, by simp [hu], h⟩
    · rintro (h | ⟨u, hu, h⟩)
      · exact Or.inl (Or.inl h)
      · rcases List.mem_cons.mp hu with rfl | hu
        · exact Or.inl (Or.inr h)
        · exact Or.inr ⟨u, hu, h⟩

lemma mem_collectTimes {tokens : List Token} {a : String} :
    a ∈ collectTimes tokens ↔ ∃ t ∈ tokens, t.start_time = some a ∨ t.end_time = some a := by
  rw [collectTimes, mem_collect_foldl]
  simp

lemma collectTimes_nodup (tokens : List Token) : (collectTimes tokens).Nodup := by
  have : ∀ acc : List String, acc.Nodup → (tokens.foldl collectStep acc).Nodup := by
    induction tokens with
    | nil => exact fun acc h => h
    | cons t ts ih => exact fun acc h => ih _ (collectStep_nodup h)
  exact this [] (by simp)

lemma timeLE_trans (a b c : String) :
    timeLE a b = true → timeLE b c = true → timeLE a c = true :=
  qLE_trans _ _ _

lemma timeLE_total (a b : String) : timeLE a b = true ∨ timeLE b a = true :=
  qLE_total _ _

lemma sortedTimes_nodup (tokens : List Token) : (sortedTimes tokens).Nodup := by
  exact ((pySorted_perm timeLE (collectTimes tokens)).nodup_iff).mpr
    (collectTimes_nodup tokens)

lemma sortedTimes_pairwise (tokens : List Token) :
    (sortedTimes tokens).Pairwise (fun a b => timeLE a b = true) :=
  pySorted_pairwise timeLE timeLE_trans timeLE_total _

lemma mem_sortedTimes {tokens : List Token} {a : String} :
    a ∈ sortedTimes tokens ↔ ∃ t ∈ tokens, t.start_time = some a ∨ t.end_time = some a := by
  rw [sortedTimes, (pySorted_perm timeLE (collectTimes tokens)).mem_iff, mem_collectTimes]

/-! ### Dict-building with fresh keys -/

lemma foldl_dinsert_append {α : Type} (l : List (String × α)) :
    ∀ acc : List (String × α), (((acc ++ l).map Prod.fst).Nodup) →
      l.foldl (fun m p => dinsert m p.1 p.2) acc = acc ++ l := by
  induction l with
  | nil => simp
  | cons p l ih =>
    intro acc h
    have hk : p.1 ∉ acc.map Prod.fst := by
      intro hmem
      rw [List.map_append] at h
      have := (List.nodup_append.mp h).2.2
      exact this hmem (by simp)
    have hstep : dinsert acc p.1 p.2 = acc ++ [p] := by
      unfold dinsert
      have : acc.any (fun q => q.1 = p.1) = false := by
        rw [List.any_eq_false]
        intro q hq
        simp only [decide_eq_true_eq]
        intro hqp
        exact hk (hqp ▸ List.mem_map_of_mem Prod.fst hq)
      simp [this]
    rw [List.foldl_cons]
    show List.foldl (fun m q => dinsert m q.1 q.2) (dinsert acc p.1 p.2) l = _
    rw [hstep, ih (acc ++ [p]) (by simpa using h)]
    simp

lemma dictOf_eq_self {α : Type} (l : List (String × α)) (h : (l.map Prod.fst).Nodup) :
    dictOf l = l := by
  have := foldl_dinsert_append l [] (by simpa using h)
  simpa [dictOf] using this

/-! ### C3: timeline identifier assignment -/

/-- A token carrying only a start timestamp, for concrete timeline scenarios. -/
def timeToken (i : Nat) (st : String) : Token :=
  ⟨i, 1, none, some "w", none, none, [], some st, none, none, [], []⟩

/-- C3 (amended): timeline identifier assignment is an order-preserving
function of the sorted distinct timestamp set — entries carry ids `TL_0,
TL_1, …` in ascending numeric order with the absolute values preserved
verbatim, `"0:00:9"` sorts before `"0:00:12.5"` — and it is
permutation-invariant provided no two distinct verbatim timestamp strings
denote the same numeric instant (with such a tie, the produced order depends
on set-iteration order and the claim fails; see the counterexample). -/
theorem timeline_assignment_deterministic (tokens : List Token) :
    ((timelinePairs tokens).map Prod.snd = sortedTimes tokens ∧
      (timelinePairs tokens).map Prod.fst
        = (List.range (sortedTimes tokens).length).map mkTlId) ∧
    (sortedTimes tokens).Pairwise
      (fun a b => qLE (time_to_seconds a) (time_to_seconds b) = true) ∧
    (∀ a, a ∈ sortedTimes tokens ↔
      ∃ t ∈ tokens, t.start_time = some a ∨ t.end_time = some a) ∧
    qLT (time_to_seconds "0:00:9") (time_to_seconds "0:00:12.5") = true ∧
    (∀ tokens2 : List Token, tokens.Perm tokens2 →
      (∀ a ∈ collectTimes tokens, ∀ b ∈ collectTimes tokens,
        qEQv (time_to_seconds a) (time_to_seconds b) → a = b) →
      timeToId tokens = timeToId tokens2 ∧
        timelinePairs tokens = timelinePairs tokens2) := by
  refine ⟨⟨?_, ?_⟩, ?_, fun a => mem_sortedTimes, by decide, ?_⟩
  · rw [timelinePairs, List.map_map]
    have : (Prod.snd ∘ fun p : Nat × String => (mkTlId p.1, p.2)) = Prod.snd := rfl
    rw [this, List.enum_map_snd]
  · rw [timelinePairs, List.map_map]
    have : (Prod.fst ∘ fun p : Nat × String => (mkTlId p.1, p.2))
        = mkTlId ∘ Prod.fst := rfl
    rw [this, ← List.map_map, List.enum_map_fst]
  · exact (sortedTimes_pairwise tokens).imp (fun h => h)
  · intro tokens2 hperm hinj
    have hc : (collectTimes tokens).Perm (collectTimes tokens2) := by
      rw [List.perm_ext_iff_of_nodup (collectTimes_nodup _) (collectTimes_nodup _)]
      intro a
      rw [mem_collectTimes, mem_collectTimes]
      constructor
      · rintro ⟨t, ht, h⟩; exact ⟨t, hperm.mem_iff.mp ht, h⟩
      · rintro ⟨t, ht, h⟩; exact ⟨t, hperm.mem_iff.mpr ht, h⟩
    have hsort : sortedTimes tokens = sortedTimes tokens2 := by
      refine sorted_perm_eq _ _ ?_ (sortedTimes_pairwise tokens)
        (sortedTimes_pairwise tokens2) ?_
      · exact ((pySorted_perm timeLE _).trans hc).trans (pySorted_perm timeLE _).symm
      · intro a ha b hb h1 h2
        have ha2 : a ∈ collectTimes tokens := (pySorted_perm timeLE _).mem_iff.mp ha
        have hb2 : b ∈ collectTimes tokens := (pySorted_perm timeLE _).mem_iff.mp hb
        exact hinj a ha2 b hb2 (qLE_antisymm_val _ _ h1 h2)
    constructor
    · rw [timeToId, timeToId, timeToIdPairs, timeToIdPairs, hsort]
    · rw [timelinePairs, timelinePairs, hsort]

/-- Witness for C3: on two tokens with numerically distinct timestamps the
identifier assignment is invariant under swapping the tokens. -/
theorem timeline_assignment_deterministic_witness :
    timeToId [timeToken 1 "0:00:01", timeToken 2 "0:00:02"]
      = timeToId [timeToken 2 "0:00:02", timeToken 1 "0:00:01"] :=
  ((timeline_assignment_deterministic _).2.2.2.2 _ (List.Perm.swap _ _ _) (by decide)).1

/-- Counterexample to C3 as stated: the verbatim strings `"0:00:01"` and
`"0:00:1"` denote the same instant, and swapping the two tokens carrying them
changes the id→value assignment, so re-running on a permutation is not
guaranteed to yield an identical mapping. -/
theorem timeline_permutation_counterexample :
    (List.Perm [timeToken 1 "0:00:01", timeToken 2 "0:00:1"]
      [timeToken 2 "0:00:1", timeToken 1 "0:00:01"]) ∧
    timeToId [timeToken 1 "0:00:01", timeToken 2 "0:00:1"]
      ≠ timeToId [timeToken 2 "0:00:1", timeToken 1 "0:00:01"] :=
  ⟨List.Perm.swap _ _ _, by decide⟩

/-! ## Whitelist validation and feature structures
(generate_transcript_file, lines 458-476 and 540-569) -/

/-- A feature-structure element of the feature-declarations standoff: its
`xml:id`, the `name` of its single `f` child, and the `feats` attribute of the
nested `fs`. -/
structure FS where
  fsid : String
  fname : String
  feats : String
deriving DecidableEq

/-- Whitelist filtering of a tokenset's tag names: keep `"#" + tag` when the
lowercased tag is a loaded DiÖ tag name, drop it (with a printed diagnostic,
not modelled) otherwise. -/
def validateTags (whitelist : List String) (tag_names : List String) : List String :=
  tag_names.filterMap (fun tag =>
    if pyLower tag ∈ whitelist then some ("#" ++ tag) else none)

/-- Whitelist filtering of a token's own tag rows: a missing or empty
`tag_name` is skipped by the truthiness guard, a non-whitelisted one is
dropped with a printed diagnostic, a whitelisted one contributes `"#" + name`. -/
def validateTokenTags (whitelist : List String) (tags : List TagInfo) : List String :=
  tags.filterMap (fun ti =>
    match ti.tag_name with
    | some nm =>
      if nm ≠ "" then (if pyLower nm ∈ whitelist then some ("#" ++ nm) else none)
      else none
    | none => none)

/-- The tokenset feature structures: one `<fs xml:id="fs_tokenset_<id>">` per
tokenset definition whose validated tag list is non-empty, in definition
order. -/
def buildTokensetFS (whitelist : List String)
    (tokenset_definitions : List (String × List String)) : List FS :=
  tokenset_definitions.filterMap (fun p =>
    if validateTags whitelist p.2 ≠ [] then
      some ⟨"fs_tokenset_" ++ p.1, "dioe_tokenset_tags",
        joinSpace (validateTags whitelist p.2)⟩
    else none)

/-! ## Token rendering (generate_transcript_file, lines 505-591) -/

/-- A rendered element inside a `<u>`: pause, incident, unclear, `<pc>` or
`<w>`, with its optional `start`/`end` reference attributes. -/
inductive RElem where
  | pauseEl (duration : String) (startA stopA : Option String)
  | incidentEl (desc : String) (startA stopA : Option String)
  | unclearEl (startA stopA : Option String)
  | pcEl (xmlid : String) (text : String) (startA stopA : Option String)
  | wEl (xmlid : String) (lem : Option String) (wtype : Option String)
      (ana : Option String) (text : String) (startA stopA : Option String)
deriving DecidableEq

/-- The `start`/`end` attribute value `f"#{time_to_id[t]}"`, set only when the
timestamp is present.  (Python indexes the dict directly; the key is always
present because the dict was built from all tokens' timestamps.) -/
def mkTimeAttr (tm : List (String × String)) (o : Option String) : Option String :=
  o.map (fun t => "#" ++ dgetD tm t "")

/-- The `fs_<token_id>_dioe` identifier. -/
def mkTokenFsId (token_id : Nat) : String := "fs_" ++ toString token_id ++ "_dioe"

/-- The tokenset part of a word's `ana` reference list: one
`#fs_tokenset_<id>` per tokenset membership whose id is a key of
`tokenset_definitions` (whether or not a structure was created for it). -/
def tokensetAnaRefs (tokenset_definitions : List (String × List String))
    (t : Token) : List String :=
  t.tokenset_ids.filterMap (fun ts_id =>
    if (tokenset_definitions.map Prod.fst).contains (toString ts_id) then
      some ("#fs_tokenset_" ++ toString ts_id)
    else none)

/-- The per-token feature structures one token contributes to the standoff:
one structure when the token renders as a word and at least one of its tags
survives the whitelist, none otherwise. -/
def tokenFS (whitelist : List String) (t : Token) : List FS :=
  match classify (displayedText t) t.sppos with
  | TokenKind.word =>
    if validateTokenTags whitelist t.tags ≠ [] then
      [⟨mkTokenFsId t.token_id, "dioe_tags",
        joinSpace (validateTokenTags whitelist t.tags)⟩]
    else []
  | _ => []

/-- Render one token: classify on the displayed text, then build the element
with its attributes; a `<w>` additionally gets `lemma`, `type` and the `ana`
reference list, and may append one per-token feature structure to the
feature-declarations standoff (returned as the second component). -/
def renderToken (whitelist : List String)
    (tokenset_definitions : List (String × List String))
    (tm : List (String × String)) (token : Token) : RElem × List FS :=
  let token_text := displayedText token
  let startA := mkTimeAttr tm token.start_time
  let stopA := mkTimeAttr tm token.end_time
  match classify token_text token.sppos with
  | TokenKind.pause d => (RElem.pauseEl d startA stopA, [])
  | TokenKind.incident d => (RElem.incidentEl d startA stopA, [])
  | TokenKind.unclear => (RElem.unclearEl startA stopA, [])
  | TokenKind.punctuationMark =>
    (RElem.pcEl ("t" ++ toString token.token_id) token_text startA stopA, [])
  | TokenKind.word =>
    let lem : Option String :=
      if token.splemma ≠ [] then some (token.splemma.headD "") else none
    let wtype : Option String :=
      match token.sppos with
      | some p => if p ≠ "" then some p else none
      | none => none
    let validated := validateTokenTags whitelist token.tags
    let fsNew : List FS :=
      if validated ≠ [] then
        [⟨mkTokenFsId token.token_id, "dioe_tags", joinSpace validated⟩]
      else []
    let anaTok : List String :=
      if validated ≠ [] then ["#" ++ mkTokenFsId token.token_id] else []
    let anaTS : List String := tokensetAnaRefs tokenset_definitions token
    let ana_refs := anaTok ++ anaTS
    let anaA : Option String :=
      if ana_refs ≠ [] then some (joinSpace ana_refs) else none
    (RElem.wEl ("t" ++ toString token.token_id) lem wtype anaA
      (pyStrip token_text) startA stopA, fsNew)

/-- A rendered `<u>` element: `who` reference, optional `start`/`end`
references, and the rendered child elements. -/
structure RUtterance where
  who : String
  startA : Option String
  stopA : Option String
  elems : List RElem
deriving DecidableEq

/-- Render one utterance: `who="#spk_<id>"`, `start`/`end` from the first
token's start and the last token's end, then the rendered tokens; the second
component collects the per-token feature structures in creation order. -/
def renderUtterance (whitelist : List String)
    (tokenset_definitions : List (String × List String))
    (tm : List (String × String)) (u : Utterance) : RUtterance × List FS :=
  let rendered := u.tokens.map (renderToken whitelist tokenset_definitions tm)
  let startA := match u.tokens.head? with
    | some t0 => mkTimeAttr tm t0.start_time
    | none => none
  let stopA := match u.tokens.getLast? with
    | some tl => mkTimeAttr tm tl.end_time
    | none => none
  (⟨"#spk_" ++ toString u.speaker, startA, stopA, rendered.map Prod.fst⟩,
    rendered.flatMap Prod.snd)

/-! ## Document assembly (generate_transcript_file) -/

/-- The parts of the assembled TEI document the claims are about: title, the
feature-declarations standoff (in creation order: tokenset structures first,
then per-token structures appended during rendering), the timeline `<when>`
entries, and the utterance body. -/
structure Document where
  title : String
  fsSection : List FS
  timeline : List (String × String)
  utterances : List RUtterance
deriving DecidableEq

/-- The sort key comparison of the token sort: start time (numerically, with
`None` as `0.0`), then `token_reihung or 0`, then `ID_Inf_id or 0`. -/
def tokenSortLE (a b : Token) : Bool :=
  let ka := timeSecondsOpt a.start_time
  let kb := timeSecondsOpt b.start_time
  if qLT ka kb then true
  else if qLT kb ka then false
  else
    let ra := a.token_reihung.getD 0
    let rb := b.token_reihung.getD 0
    if ra < rb then true
    else if rb < ra then false
    else a.ID_Inf_id ≤ b.ID_Inf_id

/-- `transcript_data.sort(key=...)`. -/
def sortTokens (l : List Token) : List Token := pySorted tokenSortLE l

/-- Assemble the document for one transcript.  Empty transcript data makes
the script print a warning and return without writing a file (`none`). -/
def generateTranscript (whitelist : List String)
    (tokenset_definitions : List (String × List String))
    (transcript_data : List Token) : Option Document :=
  match transcript_data with
  | [] => none
  | _ =>
    let sorted := sortTokens transcript_data
    let title := "Transcript: Transcript_" ++
      (match sorted.head? with
       | some t0 =>
         match t0.transcript_id_id with
         | some i => toString i
         | none => "Unknown"
       | none => "Unknown")
    let tm := timeToId sorted
    let rendered := (segment sorted).map
      (renderUtterance whitelist tokenset_definitions tm)
    some ⟨title,
      buildTokensetFS whitelist tokenset_definitions ++ rendered.flatMap Prod.snd,
      timelinePairs sorted,
      rendered.map Prod.fst⟩

/-! ## The vertical flattener (generate-vertical.py) -/

/-- One resolved speaker record of the informant registry. -/
structure SpeakerInfo where
  sex : String
  age : String
  name : String
deriving DecidableEq

/-- One `<person>` entry of the standoff informant document, as seen by
`load_speaker_data`: optional `xml:id`, `sex/@value`, `age` text and
`persName` text. -/
structure Person where
  pid : Option String
  sexValue : Option String
  ageText : Option String
  persName : Option String
deriving DecidableEq

/-- `load_speaker_data`: entries without an id are skipped; each present field
is taken (age and name text stripped of surrounding whitespace), each missing
field defaults to `"UNK"`. -/
def load_speaker_data (persons : List Person) : List (String × SpeakerInfo) :=
  persons.foldl (fun data p =>
    match p.pid with
    | none => data
    | some pid =>
      dinsert data pid
        ⟨p.sexValue.getD "UNK",
          (p.ageText.map pyStrip).getD "UNK",
          (p.persName.map pyStrip).getD "UNK"⟩) []

/-- One token row of the vertical output: the seven tab-separated columns
written by `convert_to_vertical`. -/
structure VertRow where
  word : String
  lemmaCol : String
  posCol : String
  morphCol : String
  syntaxCol : String
  startCol : String
  endCol : String
deriving DecidableEq

/-- One output line of the flattener inside a file block. -/
inductive VLine where
  | uline (who sex age name startV endV : String)
  | row (r : VertRow)
  | pauseLine (duration : String)
  | uClose
deriving DecidableEq

/-- The fields of a token row, in output order. -/
def rowFields (r : VertRow) : List String :=
  [r.word, r.lemmaCol, r.posCol, r.morphCol, r.syntaxCol, r.startCol, r.endCol]

/-- The textual form of a token row: the fields joined by tabs. -/
def renderRow (r : VertRow) : String := joinSep "\t" (rowFields r)

/-- The textual form of each output line. -/
def renderVLine : VLine → String
  | VLine.uline who sex age name s e =>
    "<u who=\"" ++ who ++ "\" sex=\"" ++ sex ++ "\" age=\"" ++ age ++ "\" name=\""
      ++ name ++ "\" start=\"" ++ s ++ "\" end=\"" ++ e ++ "\">"
  | VLine.row r => renderRow r
  | VLine.pauseLine d => "<pause duration=\"" ++ d ++ "\"/>"
  | VLine.uClose => "</u>"

/-- One category bucket of the `ana` resolution: the `ana` attribute with
`#` removed is whitespace-split into references; each reference resolving in
the standoff map to the given category contributes its `feats` value, in
order. -/
def resolveBucket (token_map : List (String × (String × String)))
    (cat : String) (anaA : Option String) : List String :=
  (pySplitWs (pyDropChar (anaA.getD "") '#')).filterMap (fun ref =>
    match dget? token_map ref with
    | some d => if d.1 = cat then some d.2 else none
    | none => none)

/-- The `w`/`pc` branch of the token loop: skip when the stripped text is
empty, defaulting and `" "`-cleaning for `lemma`, bucketing the resolved
`ana` references by category (`dioe_tokenset_tags` vs `dioe_tags`) joined
with `"|"`, and timeline resolution with `"-"` fallback for `start`/`end`. -/
def flattenWPc (token_map : List (String × (String × String)))
    (timeline_map : List (String × String))
    (lem wty anaA : Option String) (text : String)
    (startA stopA : Option String) : Option VertRow :=
  let word := pyStrip text
  if word = "" then none
  else
    let lemma0 := lem.getD "-"
    let lemma1 := if lemma0 = " " then "-" else lemma0
    let pos := wty.getD "-"
    let morph := resolveBucket token_map "dioe_tokenset_tags" anaA
    let syn := resolveBucket token_map "dioe_tags" anaA
    let str_morph := if morph ≠ [] then joinSep "|" morph else "-"
    let str_syn := if syn ≠ [] then joinSep "|" syn else "-"
    let t_start := dgetD timeline_map (pyDropChar (startA.getD "") '#') "-"
    let t_end := dgetD timeline_map (pyDropChar (stopA.getD "") '#') "-"
    some ⟨word, lemma1, pos, str_morph, str_syn, t_start, t_end⟩

/-- Flatten one child of a `<u>`: `w`/`pc` become a token row (`pc` has no
`lemma`, `type` or `ana` attribute), `pause` a self-closed marker line, and
all other element kinds are ignored. -/
def flattenElem (token_map : List (String × (String × String)))
    (timeline_map : List (String × String)) : RElem → Option VLine
  | RElem.wEl _ lem wty anaA text startA stopA =>
    (flattenWPc token_map timeline_map lem wty anaA text startA stopA).map VLine.row
  | RElem.pcEl _ text startA stopA =>
    (flattenWPc token_map timeline_map none none none text startA stopA).map VLine.row
  | RElem.pauseEl d _ _ => some (VLine.pauseLine d)
  | RElem.incidentEl _ _ _ => none
  | RElem.unclearEl _ _ => none

/-- Flatten one utterance: the enriched `<u ...>` structural line (speaker
resolved through the registry with all-`"UNK"` default and tab-to-space
cleaning; `start`/`end` resolved through the timeline with the raw reference
as fallback), the token rows, and the closing line. -/
def flattenUtterance (speaker_db : List (String × SpeakerInfo))
    (token_map : List (String × (String × String)))
    (timeline_map : List (String × String)) (u : RUtterance) : List VLine :=
  let who_ref := pyDropChar u.who '#'
  let start_ref := pyDropChar (u.startA.getD "") '#'
  let end_ref := pyDropChar (u.stopA.getD "") '#'
  let u_start := dgetD timeline_map start_ref start_ref
  let u_end := dgetD timeline_map end_ref end_ref
  let spk := dgetD speaker_db who_ref ⟨"UNK", "UNK", "UNK"⟩
  VLine.uline who_ref (pyMapChar spk.sex '\t' ' ') (pyMapChar spk.age '\t' ' ')
      (pyMapChar spk.name '\t' ' ') u_start u_end
    :: (u.elems.filterMap (flattenElem token_map timeline_map) ++ [VLine.uClose])

/-- `get_standoff_definitions`: id → (category, feats) over all identified
feature structures, skipping a falsy (empty) id. -/
def docTokenMap (doc : Document) : List (String × (String × String)) :=
  dictOf ((doc.fsSection.filter (fun fs => fs.fsid ≠ "")).map
    (fun fs => (fs.fsid, (fs.fname, fs.feats))))

/-- `get_timeline_definitions`: id → verbatim absolute value, skipping
entries with a falsy id or value. -/
def docTimelineMap (doc : Document) : List (String × String) :=
  dictOf (doc.timeline.filter (fun p => p.1 ≠ "" ∧ p.2 ≠ ""))

/-- Flatten one document's utterances in document order. -/
def flattenDoc (speaker_db : List (String × SpeakerInfo)) (doc : Document) :
    List VLine :=
  doc.utterances.flatMap
    (flattenUtterance speaker_db (docTokenMap doc) (docTimelineMap doc))

/-! ## Decimal rendering of identifiers

The timeline identifiers `TL_0, TL_1, …` and feature-structure identifiers
embed decimal renderings of numbers; resolving a reference back through an
association list needs that distinct numbers render distinctly and that the
rendering consists of digit characters. -/

lemma toDigitsCore_eq10 :
    ∀ (n : Nat), ∀ (fuel : Nat) (ds : List Char), n < fuel →
      Nat.toDigitsCore 10 fuel n ds
        = (if n = 0 then ['0']
           else ((Nat.digits 10 n).map Nat.digitChar).reverse) ++ ds := by
  intro n
  induction n using Nat.strong_induction_on with
  | _ n ih =>
    intro fuel ds hfuel
    cases fuel with
    | zero => omega
    | succ fuel =>
      have hstep : Nat.toDigitsCore 10 (fuel + 1) n ds
          = (if n / 10 = 0 then (n % 10).digitChar :: ds
             else Nat.toDigitsCore 10 fuel (n / 10) ((n % 10).digitChar :: ds)) := rfl
      rw [hstep]
      by_cases hdiv : n / 10 = 0
      · by_cases hn : n = 0
        · subst hn
          simp only [if_pos hdiv, if_pos rfl, Nat.zero_mod]
          rfl
        · have hlt10 : n < 10 := by omega
          have hmod : n % 10 = n := Nat.mod_eq_of_lt hlt10
          rw [if_pos hdiv, if_neg hn,
            Nat.digits_def' (by norm_num : (1 : Nat) < 10) (Nat.pos_of_ne_zero hn),
            hdiv, hmod]
          simp
      · have hn : n ≠ 0 := by
          intro h; subst h; simp at hdiv
        have hpos : 0 < n := Nat.pos_of_ne_zero hn
        have hlt : n / 10 < n := Nat.div_lt_self hpos (by norm_num)
        have hfuel2 : n / 10 < fuel := by omega
        rw [if_neg hdiv, ih (n / 10) hlt fuel ((n % 10).digitChar :: ds) hfuel2,
          if_neg hdiv,
          Nat.digits_def' (by norm_num : (1 : Nat) < 10) hpos, if_neg hn]
        simp [List.append_assoc]

lemma toDigits_eq10 (n : Nat) :
    Nat.toDigits 10 n
      = if n = 0 then ['0'] else ((Nat.digits 10 n).map Nat.digitChar).reverse := by
  have h := toDigitsCore_eq10 n (n + 1) [] (Nat.lt_succ_self n)
  simpa [Nat.toDigits] using h

lemma digitChar_inj_lt10 :
    ∀ a < 10, ∀ b < 10, Nat.digitChar a = Nat.digitChar b → a = b := by decide

lemma digitChar_isDigit : ∀ d < 10, (Nat.digitChar d).isDigit = true := by decide

lemma map_digitChar_inj :
    ∀ (l1 l2 : List Nat), (∀ d ∈ l1, d < 10) → (∀ d ∈ l2, d < 10) →
      l1.map Nat.digitChar = l2.map Nat.digitChar → l1 = l2 := by
  intro l1
  induction l1 with
  | nil =>
    intro l2 _ _ h
    cases l2 with
    | nil => rfl
    | cons b t => simp at h
  | cons a t ih =>
    intro l2 h1 h2 h
    cases l2 with
    | nil => simp at h
    | cons b t2 =>
      simp only [List.map_cons, List.cons.injEq] at h
      have ha := digitChar_inj_lt10 a (h1 a (by simp)) b (h2 b (by simp)) h.1
      rw [ha, ih t2 (fun d hd => h1 d (by simp [hd])) (fun d hd => h2 d (by simp [hd])) h.2]

lemma toDigits_eq_iff (m n : Nat) (h : Nat.toDigits 10 m = Nat.toDigits 10 n) :
    m = n := by
  rw [toDigits_eq10, toDigits_eq10] at h
  by_cases hm : m = 0 <;> by_cases hn : n = 0
  · rw [hm, hn]
  · exfalso
    rw [if_pos hm, if_neg hn] at h
    have hmap : (Nat.digits 10 n).map Nat.digitChar = ['0'] := by
      have := congrArg List.reverse h
      simpa using this.symm
    have hdig : Nat.digits 10 n = [0] := by
      refine map_digitChar_inj _ [0] (fun d hd => Nat.digits_lt_base (by norm_num) hd)
        (by simp) ?_
      simpa using hmap
    have := Nat.getLast_digit_ne_zero 10 hn
    simp [hdig] at this
  · exfalso
    rw [if_neg hm, if_pos hn] at h
    have hmap : (Nat.digits 10 m).map Nat.digitChar = ['0'] := by
      have := congrArg List.reverse h
      simpa using this
    have hdig : Nat.digits 10 m = [0] := by
      refine map_digitChar_inj _ [0] (fun d hd => Nat.digits_lt_base (by norm_num) hd)
        (by simp) ?_
      simpa using hmap
    have := Nat.getLast_digit_ne_zero 10 hm
    simp [hdig] at this
  · rw [if_neg hm, if_neg hn] at h
    have hmap := List.reverse_inj.mp h
    have hdig := map_digitChar_inj _ _
      (fun d hd => Nat.digits_lt_base (by norm_num) hd)
      (fun d hd => Nat.digits_lt_base (by norm_num) hd) hmap
    have h1 := Nat.ofDigits_digits 10 m
    have h2 := Nat.ofDigits_digits 10 n
    rw [← h1, ← h2, hdig]

lemma natRepr_inj (m n : Nat) (h : Nat.repr m = Nat.repr n) : m = n := by
  have hd : Nat.toDigits 10 m = Nat.toDigits 10 n := congrArg String.data h
  exact toDigits_eq_iff m n hd

lemma natToString_inj (m n : Nat) (h : toString m = toString n) : m = n :=
  natRepr_inj m n h

lemma natToString_chars (n : Nat) : ∀ c ∈ (toString n).data, c.isDigit = true := by
  intro c hc
  have hc2 : c ∈ Nat.toDigits 10 n := hc
  rw [toDigits_eq10] at hc2
  by_cases hn : n = 0
  · rw [if_pos hn] at hc2
    simp at hc2
    rw [hc2]
    decide
  · rw [if_neg hn] at hc2
    rw [List.mem_reverse] at hc2
    rcases List.mem_map.mp hc2 with ⟨d, hd, rfl⟩
    exact digitChar_isDigit d (Nat.digits_lt_base (by norm_num) hd)

lemma mkTlId_inj (i j : Nat) (h : mkTlId i = mkTlId j) : i = j := by
  have hd := congrArg String.data h
  rw [mkTlId, mkTlId, String.data_append, String.data_append] at hd
  have := List.append_cancel_left hd
  exact natToString_inj i j (String.ext this)

lemma mkTlId_no_hash (i : Nat) : '#' ∉ (mkTlId i).data := by
  intro hmem
  rw [mkTlId, String.data_append] at hmem
  rcases List.mem_append.mp hmem with h | h
  · exact absurd h (by decide)
  · have := natToString_chars i '#' h
    simp at this

lemma mkTlId_ne_empty (i : Nat) : mkTlId i ≠ "" := by
  intro h
  have hd := congrArg String.data h
  rw [mkTlId, String.data_append] at hd
  simp at hd

/-! ## String-manipulation lemmas -/

lemma pyDropChar_eq_self {s : String} {c : Char} (h : c ∉ s.data) :
    pyDropChar s c = s := by
  apply String.ext
  show s.data.filter (fun x => x ≠ c) = s.data
  rw [List.filter_eq_self]
  intro a ha
  simp only [ne_eq, decide_eq_true_eq]
  intro hac
  exact h (hac ▸ ha)

lemma pyDropChar_append (a b : String) (c : Char) :
    pyDropChar (a ++ b) c = pyDropChar a c ++ pyDropChar b c := by
  apply String.ext
  rw [String.data_append]
  show ((a ++ b).data).filter (fun x => x ≠ c)
    = a.data.filter (fun x => x ≠ c) ++ b.data.filter (fun x => x ≠ c)
  rw [String.data_append, List.filter_append]

lemma pyDropChar_hash (s : String) (h : '#' ∉ s.data) :
    pyDropChar ("#" ++ s) '#' = s := by
  rw [pyDropChar_append]
  have h1 : pyDropChar "#" '#' = "" := by decide
  rw [h1, pyDropChar_eq_self h]
  apply String.ext
  rw [String.data_append]
  rfl

lemma dropWhile_head_false {p : Char → Bool} {l : List Char} {x : Char}
    {xs : List Char} (h : l.dropWhile p = x :: xs) : p x = false := by
  have hne : l.dropWhile p ≠ [] := by simp [h]
  have hh := List.head_dropWhile_not p l hne
  have : (l.dropWhile p).head hne = x := by
    simp [h]
  rwa [this] at hh

lemma dropWhile_idem (p : Char → Bool) (l : List Char) :
    (l.dropWhile p).dropWhile p = l.dropWhile p := by
  cases h : l.dropWhile p with
  | nil => simp
  | cons x xs =>
    have hx := dropWhile_head_false h
    simp [List.dropWhile_cons, hx]

lemma stripChars_idem (l : List Char) : stripChars (stripChars l) = stripChars l := by
  unfold stripChars
  set A := l.dropWhile Char.isWhitespace with hA
  set C := A.reverse.dropWhile Char.isWhitespace with hC
  have h1 : C.reverse.dropWhile Char.isWhitespace = C.reverse := by
    cases hcr : C.reverse with
    | nil => simp
    | cons y ys =>
      have hCA : A = C.reverse ++ (A.reverse.takeWhile Char.isWhitespace).reverse := by
        have ht := List.takeWhile_append_dropWhile Char.isWhitespace A.reverse
        calc A = A.reverse.reverse := by simp
          _ = (A.reverse.takeWhile Char.isWhitespace ++ C).reverse := by rw [hC, ht]
          _ = C.reverse ++ (A.reverse.takeWhile Char.isWhitespace).reverse := by
            rw [List.reverse_append]
      have hAd : A.dropWhile Char.isWhitespace = A := by
        rw [hA]; exact dropWhile_idem _ l
      have hrest : ∃ rest, A = y :: rest := by
        rw [hCA, hcr]; exact ⟨ys ++ (A.reverse.takeWhile Char.isWhitespace).reverse, rfl⟩
      obtain ⟨rest, hAy⟩ := hrest
      have hy : Char.isWhitespace y = false := by
        have hd := hAd
        rw [hAy, List.dropWhile_cons] at hd
        by_cases hw : Char.isWhitespace y
        · rw [if_pos hw] at hd
          have hlen := congrArg List.length hd
          have hle := (List.dropWhile_sublist (l := rest)
            (p := Char.isWhitespace)).length_le
          simp at hlen
          omega
        · simpa using hw
      simp [List.dropWhile_cons, hy]
  rw [h1, List.reverse_reverse]
  have h2 : C.dropWhile Char.isWhitespace = C := by
    rw [hC]; exact dropWhile_idem _ _
  rw [h2]

lemma pyStrip_idem (s : String) : pyStrip (pyStrip s) = pyStrip s := by
  show (⟨stripChars (stripChars s.data)⟩ : String) = ⟨stripChars s.data⟩
  rw [stripChars_idem]

/-! ## Dictionary-lookup lemmas -/

lemma dget?_of_mem_nodup {α : Type} {m : List (String × α)} {k : String} {v : α}
    (hmem : (k, v) ∈ m) (hnd : (m.map Prod.fst).Nodup) : dget? m k = some v := by
  induction m with
  | nil => simp at hmem
  | cons p rest ih =>
    obtain ⟨pk, pv⟩ := p
    have hnd2 : (pk :: rest.map Prod.fst).Nodup := by simpa using hnd
    rcases List.mem_cons.mp hmem with heq | hmem2
    · injection heq with h1 h2
      subst h1
      subst h2
      unfold dget?
      rw [List.find?_cons]
      simp
    · have hk : ¬pk = k := by
        intro he
        exact (List.nodup_cons.mp hnd2).1 (he ▸ List.mem_map_of_mem Prod.fst hmem2)
      unfold dget?
      rw [List.find?_cons]
      have hcond : decide ((pk, pv).1 = k) = false := by simp [hk]
      rw [hcond]
      exact ih hmem2 (List.nodup_cons.mp hnd2).2

lemma dget?_eq_none {α : Type} {m : List (String × α)} {k : String}
    (h : k ∉ m.map Prod.fst) : dget? m k = none := by
  unfold dget?
  rw [List.find?_eq_none.mpr]
  · rfl
  · intro x hx
    simp only [decide_eq_true_eq]
    intro hxk
    exact h (hxk ▸ List.mem_map_of_mem Prod.fst hx)

/-! ## C1: reference integrity of the assembled document -/

/-- A token belonging to tokenset 7, with no per-token tags. -/
def c1Token : Token :=
  ⟨1, 1, none, some "hello", none, some "ADJ", [], none, none, none, [], [7]⟩

/-- C1 evaluated at the failing input: tokenset 7 is defined but all its tags
are whitelist-rejected, so no `fs_tokenset_7` feature structure is created —
yet the word's `ana` attribute still references `#fs_tokenset_7`, because the
reference-time guard checks membership in `tokenset_definitions` instead of
whether the structure was created.  The emitted reference dangles. -/
theorem tokenset_reference_dangles :
    (generateTranscript ["good"] [("7", ["bad"])] [c1Token]).map
        (fun d => (d.fsSection, d.utterances.map RUtterance.elems))
      = some ([],
          [[RElem.wEl "t1" none (some "ADJ") (some "#fs_tokenset_7") "hello"
              none none]]) := by
  decide

/-! ## C7: the token-row line shape -/

/-- C7 (amended): for every `w`/`pc` element with non-empty stripped text the
flattener emits exactly one row of SEVEN tab-separated fields — text,
lemma-or-`"-"` (a bare-space lemma is also replaced by `"-"`),
pos-or-`"-"`, the `dioe_tokenset_tags` bucket, the `dioe_tags` bucket, and
the resolved start/end — where each bucket joins the resolved values of all
its `ana` references with `"|"`, or is `"-"` when empty.  (The claim's
six-field grammar misses the split of the tag bundle into two category
columns.) -/
theorem token_row_seven_fields (token_map : List (String × (String × String)))
    (timeline_map : List (String × String)) (lem wty anaA : Option String)
    (text : String) (sA eA : Option String) (hne : pyStrip text ≠ "") :
    ∃ r, flattenWPc token_map timeline_map lem wty anaA text sA eA = some r ∧
      renderRow r = joinSep "\t" (rowFields r) ∧
      (rowFields r).length = 7 ∧
      r.word = pyStrip text ∧
      r.morphCol = (if resolveBucket token_map "dioe_tokenset_tags" anaA ≠ []
        then joinSep "|" (resolveBucket token_map "dioe_tokenset_tags" anaA)
        else "-") ∧
      r.syntaxCol = (if resolveBucket token_map "dioe_tags" anaA ≠ []
        then joinSep "|" (resolveBucket token_map "dioe_tags" anaA)
        else "-") := by
  refine ⟨⟨pyStrip text,
    (if (lem.getD "-") = " " then "-" else lem.getD "-"),
    wty.getD "-",
    (if resolveBucket token_map "dioe_tokenset_tags" anaA ≠ []
      then joinSep "|" (resolveBucket token_map "dioe_tokenset_tags" anaA) else "-"),
    (if resolveBucket token_map "dioe_tags" anaA ≠ []
      then joinSep "|" (resolveBucket token_map "dioe_tags" anaA) else "-"),
    dgetD timeline_map (pyDropChar (sA.getD "") '#') "-",
    dgetD timeline_map (pyDropChar (eA.getD "") '#') "-"⟩, ?_, rfl, rfl, rfl, rfl, rfl⟩
  unfold flattenWPc
  rw [if_neg hne]

/-- Witness for C7: a two-reference `ana` list resolves to two `dioe_tags`
values joined with `"|"` in the syntax bucket of the emitted row. -/
theorem token_row_seven_fields_witness :
    ∃ r, flattenWPc [("a", ("dioe_tags", "v1")), ("b", ("dioe_tags", "v2"))] []
        none none (some "#a #b") "hi" none none = some r ∧
      renderRow r = joinSep "\t" (rowFields r) ∧
      (rowFields r).length = 7 ∧
      r.word = pyStrip "hi" ∧
      r.morphCol = (if resolveBucket [("a", ("dioe_tags", "v1")),
          ("b", ("dioe_tags", "v2"))] "dioe_tokenset_tags" (some "#a #b") ≠ []
        then joinSep "|" (resolveBucket [("a", ("dioe_tags", "v1")),
          ("b", ("dioe_tags", "v2"))] "dioe_tokenset_tags" (some "#a #b"))
        else "-") ∧
      r.syntaxCol = (if resolveBucket [("a", ("dioe_tags", "v1")),
          ("b", ("dioe_tags", "v2"))] "dioe_tags" (some "#a #b") ≠ []
        then joinSep "|" (resolveBucket [("a", ("dioe_tags", "v1")),
          ("b", ("dioe_tags", "v2"))] "dioe_tags" (some "#a #b"))
        else "-") :=
  token_row_seven_fields [("a", ("dioe_tags", "v1")), ("b", ("dioe_tags", "v2"))]
    [] none none (some "#a #b") "hi" none none (by decide)

/-- Counterexample to C7 as stated: a concrete emitted row has seven
tab-separated fields (six tab characters), not six fields (which would be
five tabs). -/
theorem token_row_six_fields_counterexample :
    flattenWPc [] [] none none none "hi" none none
      = some ⟨"hi", "-", "-", "-", "-", "-", "-"⟩ ∧
    (renderRow ⟨"hi", "-", "-", "-", "-", "-", "-"⟩).data.count '\t' = 6 ∧
    (6 : Nat) ≠ 5 := by
  decide

/-! ## C8: sentinel substitution for unresolvable references -/

lemma dget?_mem_values {α : Type} {m : List (String × α)} {k : String} {v : α}
    (h : dget? m k = some v) : v ∈ m.map Prod.snd := by
  unfold dget? at h
  rcases hf : m.find? (fun p => p.1 = k) with _ | pair
  · rw [hf] at h; simp at h
  · rw [hf] at h
    simp only [Option.map_some', Option.some.injEq] at h
    have hmem := List.mem_of_find?_eq_some hf
    rcases h with rfl
    exact List.mem_map_of_mem Prod.snd hmem

/-- C8 (amended): on token rows every unresolvable `start`/`end` reference
becomes `"-"` (rows only ever carry a timeline value or `"-"`), and an
utterance whose `who` is absent from the informant registry gets all-`"UNK"`
speaker fields; but an unresolvable `start`/`end` on the utterance line falls
back to the raw reference id (verbatim, possibly empty), not to `"-"`. -/
theorem sentinel_substitution (speaker_db : List (String × SpeakerInfo))
    (token_map : List (String × (String × String)))
    (timeline_map : List (String × String)) (u : RUtterance) :
    (∀ el r, flattenElem token_map timeline_map el = some (VLine.row r) →
      (r.startCol = "-" ∨ r.startCol ∈ timeline_map.map Prod.snd) ∧
      (r.endCol = "-" ∨ r.endCol ∈ timeline_map.map Prod.snd)) ∧
    (pyDropChar u.who '#' ∉ speaker_db.map Prod.fst →
      ∃ rest, flattenUtterance speaker_db token_map timeline_map u
        = VLine.uline (pyDropChar u.who '#') "UNK" "UNK" "UNK"
            (dgetD timeline_map (pyDropChar (u.startA.getD "") '#')
              (pyDropChar (u.startA.getD "") '#'))
            (dgetD timeline_map (pyDropChar (u.stopA.getD "") '#')
              (pyDropChar (u.stopA.getD "") '#')) :: rest) := by
  constructor
  · intro el r hel
    have hrow : ∀ lem wty anaA text sA eA,
        flattenWPc token_map timeline_map lem wty anaA text sA eA
            = some r →
          (r.startCol = "-" ∨ r.startCol ∈ timeline_map.map Prod.snd) ∧
          (r.endCol = "-" ∨ r.endCol ∈ timeline_map.map Prod.snd) := by
      intro lem wty anaA text sA eA hw
      unfold flattenWPc at hw
      by_cases hword : pyStrip text = ""
      · rw [if_pos hword] at hw; simp at hw
      · rw [if_neg hword] at hw
        simp only [Option.some.injEq] at hw
        subst hw
        constructor
        · show dgetD timeline_map (pyDropChar (sA.getD "") '#') "-" = "-" ∨ _
          unfold dgetD
          rcases hq : dget? timeline_map (pyDropChar (sA.getD "") '#') with _ | v
          · exact Or.inl rfl
          · exact Or.inr (by simpa using dget?_mem_values hq)
        · show dgetD timeline_map (pyDropChar (eA.getD "") '#') "-" = "-" ∨ _
          unfold dgetD
          rcases hq : dget? timeline_map (pyDropChar (eA.getD "") '#') with _ | v
          · exact Or.inl rfl
          · exact Or.inr (by simpa using dget?_mem_values hq)
    cases el with
    | wEl xid lem wty anaA text sA eA =>
      simp only [flattenElem] at hel
      rcases hf : flattenWPc token_map timeline_map lem wty anaA text sA eA
        with _ | r2
      · rw [hf] at hel; simp at hel
      · rw [hf] at hel
        simp only [Option.map_some', Option.some.injEq, VLine.row.injEq] at hel
        rw [hel] at hf
        exact hrow lem wty anaA text sA eA hf
    | pcEl xid text sA eA =>
      simp only [flattenElem] at hel
      rcases hf : flattenWPc token_map timeline_map none none none text sA eA
        with _ | r2
      · rw [hf] at hel; simp at hel
      · rw [hf] at hel
        simp only [Option.map_some', Option.some.injEq, VLine.row.injEq] at hel
        rw [hel] at hf
        exact hrow none none none text sA eA hf
    | pauseEl d sA eA => simp [flattenElem] at hel
    | incidentEl d sA eA => simp [flattenElem] at hel
    | unclearEl sA eA => simp [flattenElem] at hel
  · intro hwho
    refine ⟨u.elems.filterMap (flattenElem token_map timeline_map)
      ++ [VLine.uClose], ?_⟩
    unfold flattenUtterance
    have hspk : dgetD speaker_db (pyDropChar u.who '#') ⟨"UNK", "UNK", "UNK"⟩
        = ⟨"UNK", "UNK", "UNK"⟩ := by
      unfold dgetD
      rw [dget?_eq_none hwho]
      rfl
    have hUNK : pyMapChar "UNK" '\t' ' ' = "UNK" := by decide
    simp only [hspk, hUNK]

/-- Witness for C8 at a concrete input: a row with a dangling `start`
reference carries `"-"`, and an unknown speaker yields the all-`UNK` line
with the raw (unresolved) utterance `start` reference kept verbatim. -/
theorem sentinel_substitution_witness :
    ((flattenElem [] [] (RElem.wEl "t1" none none none "hi" (some "#TL_9") none)
        = some (VLine.row ⟨"hi", "-", "-", "-", "-", "-", "-"⟩)) →
      (VertRow.startCol ⟨"hi", "-", "-", "-", "-", "-", "-"⟩ = "-" ∨
        VertRow.startCol ⟨"hi", "-", "-", "-", "-", "-", "-"⟩
          ∈ ([] : List (String × String)).map Prod.snd)) ∧
    (∃ rest, flattenUtterance [] [] [] (⟨"#spk_9", some "#TL_99", none, []⟩ : RUtterance)
      = VLine.uline "spk_9" "UNK" "UNK" "UNK" "TL_99" "" :: rest) := by
  have h := sentinel_substitution [] [] [] ⟨"#spk_9", some "#TL_99", none, []⟩
  constructor
  · intro hel
    exact (h.1 (RElem.wEl "t1" none none none "hi" (some "#TL_9") none) _ hel).1
  · have h2 := h.2 (by decide)
    obtain ⟨rest, hr⟩ := h2
    refine ⟨rest, ?_⟩
    have hwho : pyDropChar "#spk_9" '#' = "spk_9" := by decide
    have hst : dgetD ([] : List (String × String))
        (pyDropChar ((some "#TL_99").getD "") '#')
        (pyDropChar ((some "#TL_99").getD "") '#') = "TL_99" := by decide
    have hen : dgetD ([] : List (String × String))
        (pyDropChar ((none : Option String).getD "") '#')
        (pyDropChar ((none : Option String).getD "") '#') = "" := by decide
    rw [hr]
    congr 1

/-- Counterexample to C8 as stated: an utterance `start` reference absent
from the timeline is emitted verbatim (`"TL_99"`), not replaced by `"-"`. -/
theorem sentinel_uline_counterexample :
    flattenUtterance [] [] [] (⟨"#spk_9", some "#TL_99", none, []⟩ : RUtterance)
      = [VLine.uline "spk_9" "UNK" "UNK" "UNK" "TL_99" "", VLine.uClose] ∧
    ("TL_99" : String) ≠ "-" := by
  decide

/-! ## C9: speaker-field cleaning on the utterance line -/

/-- A person record whose age text contains an embedded newline (as produced
by a pretty-printed standoff document). -/
def c9Person : Person :=
  ⟨some "spk_1", some "male", some "jung\n(18-35)", some "Informant 0025"⟩

/-- C9 evaluated at the failing input: the cleaning step replaces only tab
characters (by spaces); a newline embedded in the resolved age value survives
into the rendered `<u ...>` line, breaking the line-oriented format — the
code's own comment says tabs and newlines are removed. -/
theorem speaker_newline_survives :
    flattenUtterance (load_speaker_data [c9Person]) [] []
        (⟨"#spk_1", none, none, []⟩ : RUtterance)
      = [VLine.uline "spk_1" "male" "jung\n(18-35)" "Informant 0025" "" "",
          VLine.uClose] ∧
    '\n' ∈ (renderVLine
      (VLine.uline "spk_1" "male" "jung\n(18-35)" "Informant 0025" "" "")).data ∧
    pyMapChar "a\tb" '\t' ' ' = "a b" := by
  decide

/-! ## C5: feature-structure creation discipline -/

lemma renderToken_snd (wl : List String) (defs : List (String × List String))
    (tm : List (String × String)) (t : Token) :
    (renderToken wl defs tm t).2 = tokenFS wl t := by
  unfold renderToken tokenFS
  cases h : classify (displayedText t) t.sppos <;> simp [h]

lemma renderUtterance_snd (wl : List String) (defs : List (String × List String))
    (tm : List (String × String)) (u : Utterance) :
    (renderUtterance wl defs tm u).2 = u.tokens.flatMap (tokenFS wl) := by
  show ((u.tokens.map (renderToken wl defs tm)).flatMap Prod.snd)
    = u.tokens.flatMap (tokenFS wl)
  induction u.tokens with
  | nil => rfl
  | cons t ts ih => simp [List.map_cons, List.flatMap_cons, ih, renderToken_snd]

lemma flatten_flatMap {α β : Type} (ll : List (List α)) (f : α → List β) :
    ll.flatten.flatMap f = ll.flatMap (fun l => l.flatMap f) := by
  induction ll with
  | nil => simp
  | cons l ls ih => simp [ih]

lemma segment_flatMap (f : Token → List FS) (l : List Token) :
    (segment l).flatMap (fun u => u.tokens.flatMap f) = l.flatMap f := by
  have h1 : (segment l).flatMap (fun u => u.tokens.flatMap f)
      = ((segment l).map Utterance.tokens).flatMap (fun tl => tl.flatMap f) := by
    induction segment l with
    | nil => rfl
    | cons u us ih => simp [ih]
  rw [h1, ← flatten_flatMap, segment_join]

lemma string_append_left_cancel {a b c : String} (h : a ++ b = a ++ c) : b = c := by
  have hd := congrArg String.data h
  rw [String.data_append, String.data_append] at hd
  exact String.ext (List.append_cancel_left hd)

lemma buildTokensetFS_mem {wl : List String} {defs : List (String × List String)}
    {fs : FS} (h : fs ∈ buildTokensetFS wl defs) :
    ∃ p ∈ defs, validateTags wl p.2 ≠ [] ∧
      fs = ⟨"fs_tokenset_" ++ p.1, "dioe_tokenset_tags",
        joinSpace (validateTags wl p.2)⟩ := by
  unfold buildTokensetFS at h
  rcases List.mem_filterMap.mp h with ⟨p, hp, hsome⟩
  by_cases hv : validateTags wl p.2 ≠ []
  · rw [if_pos hv] at hsome
    exact ⟨p, hp, hv, (Option.some.inj hsome).symm⟩
  · rw [if_neg hv] at hsome
    exact absurd hsome (by simp)

lemma buildTokensetFS_cons (wl : List String) (q : String × List String)
    (defs : List (String × List String)) :
    buildTokensetFS wl (q :: defs)
      = (if validateTags wl q.2 ≠ [] then
          [⟨"fs_tokenset_" ++ q.1, "dioe_tokenset_tags",
            joinSpace (validateTags wl q.2)⟩] else [])
        ++ buildTokensetFS wl defs := by
  unfold buildTokensetFS
  rw [List.filterMap_cons]
  by_cases hv : validateTags wl q.2 ≠ [] <;> simp [hv]

lemma buildTokensetFS_countP (wl : List String) :
    ∀ (defs : List (String × List String)), (defs.map Prod.fst).Nodup →
      ∀ p ∈ defs,
        ((buildTokensetFS wl defs).countP
          (fun fs => fs.fsid = "fs_tokenset_" ++ p.1))
          = if validateTags wl p.2 ≠ [] then 1 else 0 := by
  intro defs
  induction defs with
  | nil => intro _ p hp; simp at hp
  | cons q defs ih =>
    intro hkeys p hp
    have hkeys2 : (q.1 :: defs.map Prod.fst).Nodup := by simpa using hkeys
    rw [buildTokensetFS_cons, List.countP_append]
    rcases List.mem_cons.mp hp with rfl | hp2
    · have htail : ((buildTokensetFS wl defs).countP
          (fun fs => fs.fsid = "fs_tokenset_" ++ p.1)) = 0 := by
        rw [List.countP_eq_zero]
        intro fs hfs
        rcases buildTokensetFS_mem hfs with ⟨p2, hp2, _, rfl⟩
        simp only [decide_eq_true_eq]
        intro heq
        have hpq : p2.1 = p.1 := string_append_left_cancel heq
        exact (List.nodup_cons.mp hkeys2).1
          (hpq ▸ List.mem_map_of_mem Prod.fst hp2)
      rw [htail]
      by_cases hv : validateTags wl p.2 ≠ []
      · simp [hv]
      · simp [hv]
    · have hne : q.1 ≠ p.1 := by
        intro heq
        exact (List.nodup_cons.mp hkeys2).1
          (heq ▸ List.mem_map_of_mem Prod.fst hp2)
      have hhead : (List.countP (fun fs => decide (FS.fsid fs = "fs_tokenset_" ++ p.1))
          (if validateTags wl q.2 ≠ [] then
            [⟨"fs_tokenset_" ++ q.1, "dioe_tokenset_tags",
              joinSpace (validateTags wl q.2)⟩] else [])) = 0 := by
        by_cases hv : validateTags wl q.2 ≠ []
        · rw [if_pos hv]
          rw [List.countP_eq_zero]
          intro fs hfs
          simp only [List.mem_singleton] at hfs
          subst hfs
          simp only [decide_eq_true_eq]
          exact fun heq => hne (string_append_left_cancel heq)
        · rw [if_neg hv]
          rfl
      rw [hhead, ih (List.nodup_cons.mp hkeys2).2 p hp2]
      simp

/-- C5 (amended): the feature-declarations standoff of an assembled document
is exactly the tokenset structures followed by the per-token structures of
the rendered tokens in order; a bundle with no whitelist-surviving tag yields
no structure, no id and no per-token reference; a word token with surviving
tags yields exactly one structure; whitelist-rejected tags are omitted (every
surviving entry comes from a whitelisted tag) without failing; and
per-distinct-tokenset-id at most one structure is created (exactly one when a
tag survives) — but a token rendered as pause/incident/unclear/punctuation
never contributes a per-token structure, even when its tags survive. -/
theorem featstruct_creation (wl : List String) (defs : List (String × List String))
    (data : List Token) (doc : Document)
    (hdoc : generateTranscript wl defs data = some doc)
    (hkeys : (defs.map Prod.fst).Nodup) :
    doc.fsSection = buildTokensetFS wl defs ++ (sortTokens data).flatMap (tokenFS wl) ∧
    (∀ t : Token, validateTokenTags wl t.tags = [] → tokenFS wl t = []) ∧
    (∀ t : Token, (tokenFS wl t).length ≤ 1) ∧
    (∀ t : Token, classify (displayedText t) t.sppos = TokenKind.word →
      validateTokenTags wl t.tags ≠ [] →
      tokenFS wl t = [⟨mkTokenFsId t.token_id, "dioe_tags",
        joinSpace (validateTokenTags wl t.tags)⟩]) ∧
    (∀ (t : Token) (tm : List (String × String)),
      validateTokenTags wl t.tags = [] →
      (renderToken wl defs tm t).2 = [] ∧
      (∀ xid lem wty anaA txt sA eA,
        (renderToken wl defs tm t).1 = RElem.wEl xid lem wty anaA txt sA eA →
        anaA = (if tokensetAnaRefs defs t ≠ []
          then some (joinSpace (tokensetAnaRefs defs t)) else none))) ∧
    (∀ (s : String) (tags : List TagInfo), s ∈ validateTokenTags wl tags →
      ∃ ti ∈ tags, ∃ nm, ti.tag_name = some nm ∧ nm ≠ "" ∧
        pyLower nm ∈ wl ∧ s = "#" ++ nm) ∧
    (∀ p ∈ defs,
      ((buildTokensetFS wl defs).countP
        (fun fs => fs.fsid = "fs_tokenset_" ++ p.1))
        = if validateTags wl p.2 ≠ [] then 1 else 0) := by
  refine ⟨?_, ?_, ?_, ?_, ?_, ?_, buildTokensetFS_countP wl defs hkeys⟩
  · cases data with
    | nil => simp [generateTranscript] at hdoc
    | cons t0 rest =>
      simp only [generateTranscript, Option.some.injEq] at hdoc
      subst hdoc
      show buildTokensetFS wl defs ++ _ = _
      congr 1
      have hx : ∀ utts : List Utterance,
          ((utts.map (renderUtterance wl defs
            (timeToId (sortTokens (t0 :: rest))))).flatMap Prod.snd)
            = utts.flatMap (fun u => u.tokens.flatMap (tokenFS wl)) := by
        intro utts
        induction utts with
        | nil => rfl
        | cons u us ih =>
          simp [List.map_cons, List.flatMap_cons, ih, renderUtterance_snd]
      rw [hx, segment_flatMap]
  · intro t hv
    unfold tokenFS
    cases h : classify (displayedText t) t.sppos <;> simp [h, hv]
  · intro t
    unfold tokenFS
    cases h : classify (displayedText t) t.sppos <;> simp [h]
    by_cases hv : validateTokenTags wl t.tags = [] <;> simp [hv]
  · intro t hw hv
    unfold tokenFS
    rw [hw, if_pos hv]
  · intro t tm hv
    constructor
    · rw [renderToken_snd]
      unfold tokenFS
      cases h : classify (displayedText t) t.sppos <;> simp [h, hv]
    · intro xid lem wty anaA txt sA eA hel
      unfold renderToken at hel
      cases h : classify (displayedText t) t.sppos with
      | pause d => simp [h] at hel
      | incident d => simp [h] at hel
      | unclear => simp [h] at hel
      | punctuationMark => simp [h] at hel
      | word =>
        simp only [h, hv, ne_eq, not_true_eq_false, if_false, List.nil_append,
          RElem.wEl.injEq] at hel
        obtain ⟨_, _, _, hana, _, _, _⟩ := hel
        rw [← hana]
  · intro s tags hs
    unfold validateTokenTags at hs
    rcases List.mem_filterMap.mp hs with ⟨ti, hti, hsome⟩
    rcases hname : ti.tag_name with _ | nm
    · rw [hname] at hsome; simp at hsome
    · rw [hname] at hsome
      by_cases hne : nm ≠ ""
      · by_cases hwl : pyLower nm ∈ wl
        · rw [show (match some nm with
              | some nm =>
                if nm ≠ "" then
                  (if pyLower nm ∈ wl then some ("#" ++ nm) else none)
                else none
              | none => (none : Option String))
              = if nm ≠ "" then
                  (if pyLower nm ∈ wl then some ("#" ++ nm) else none)
                else none from rfl, if_pos hne, if_pos hwl] at hsome
          exact ⟨ti, hti, nm, hname, hne, hwl, (Option.some.inj hsome).symm⟩
        · simp [hne, hwl] at hsome
      · simp [hne] at hsome

/-- A `PUNCT` token whose single tag survives the whitelist. -/
def c5Token : Token :=
  ⟨2, 1, none, some ".", none, some "PUNCT", [], none, none, none,
    [⟨none, some "Good", none, none, none⟩], []⟩

/-- A word token whose single tag survives the whitelist. -/
def c5WordToken : Token :=
  ⟨3, 1, none, some "hello", none, some "ADJ", [], none, none, none,
    [⟨none, some "Good", none, none, none⟩], []⟩

/-- The document assembled in the C5 witness scenario. -/
def c5Doc : Document :=
  (generateTranscript ["good"] [("7", ["good"])] [c5WordToken]).getD ⟨"", [], [], []⟩

/-- Counterexample to C5 as stated: a `PUNCT` token's tag bundle has a
whitelist-surviving tag, yet the assembled document contains no
feature-structure entry at all — tag handling only runs for word elements. -/
theorem featstruct_punct_counterexample :
    validateTokenTags ["good"] c5Token.tags = ["#Good"] ∧
    (generateTranscript ["good"] [] [c5Token]).map Document.fsSection
      = some [] := by
  decide

/-- Witness for C5: on a one-word transcript with one tokenset definition the
standoff equals the tokenset structure followed by the word's per-token
structure, and the tokenset id `7` gets exactly one structure. -/
theorem featstruct_creation_witness :
    c5Doc.fsSection = buildTokensetFS ["good"] [("7", ["good"])]
      ++ (sortTokens [c5WordToken]).flatMap (tokenFS ["good"]) ∧
    ((buildTokensetFS ["good"] [("7", ["good"])]).countP
      (fun fs => fs.fsid = "fs_tokenset_" ++ "7"))
      = if validateTags ["good"] ["good"] ≠ [] then 1 else 0 := by
  have h := featstruct_creation ["good"] [("7", ["good"])] [c5WordToken] c5Doc
    (by decide) (by decide)
  exact ⟨h.1, h.2.2.2.2.2.2 ("7", ["good"]) (by decide)⟩

/-! ## C10: the batched tags-and-answers fetch
(fetch_transcript_data, lines 174-220) -/

/-- The batch size of the answers fetch. -/
def BATCH_SIZE : Nat := 1000

/-- Model of Python `range(0, 1000, BATCH_SIZE)`: the constant bound `1000`
is written in the source where the token-id count belongs. -/
def batchStarts : List Nat :=
  (List.range ((1000 + BATCH_SIZE - 1) / BATCH_SIZE)).map (· * BATCH_SIZE)

/-- The per-token tag rows the database returns for a set of token ids: the
database is abstracted as a map from token id to that token's tag rows, and
each returned row carries its token id (`row[0]`). -/
def fetchTagsAnswers (tagsDB : Nat → List TagInfo) (token_ids : List Nat) :
    List (Nat × TagInfo) :=
  batchStarts.flatMap (fun i =>
    ((token_ids.drop i).take BATCH_SIZE).flatMap (fun tid =>
      (tagsDB tid).map (fun r => (tid, r))))

/-- One step of building `answers_map`: append the row to the entry of its
token id, creating the entry on first sight. -/
def answersInsert (m : List (Nat × List TagInfo)) (tid : Nat) (info : TagInfo) :
    List (Nat × List TagInfo) :=
  if m.any (fun p => p.1 = tid) then
    m.map (fun p => if p.1 = tid then (p.1, p.2 ++ [info]) else p)
  else m ++ [(tid, [info])]

/-- `answers_map` built from the fetched rows. -/
def buildAnswersMap (rows : List (Nat × TagInfo)) : List (Nat × List TagInfo) :=
  rows.foldl (fun m row => answersInsert m row.1 row.2) []

/-- `answers_map.get(token_id, [])`. -/
def answersGet (m : List (Nat × List TagInfo)) (tid : Nat) : List TagInfo :=
  ((m.find? (fun p => p.1 = tid)).map Prod.snd).getD []

/-- The merge step: each token receives the answer rows fetched for its id
(an empty list when none were fetched). -/
def mergeTags (tagsDB : Nat → List TagInfo) (tokens : List Token) : List Token :=
  let amap := buildAnswersMap (fetchTagsAnswers tagsDB (tokens.map Token.token_id))
  tokens.map (fun t => { t with tags := answersGet amap t.token_id })

lemma answersInsert_keys (m : List (Nat × List TagInfo)) (tid : Nat)
    (info : TagInfo) :
    ∀ k ∈ (answersInsert m tid info).map Prod.fst, k ∈ m.map Prod.fst ∨ k = tid := by
  intro k hk
  unfold answersInsert at hk
  by_cases hc : m.any (fun p => p.1 = tid)
  · rw [if_pos hc, List.map_map] at hk
    rcases List.mem_map.mp hk with ⟨p, hp, hpk⟩
    by_cases hpt : p.1 = tid
    · right
      rw [← hpk]
      simp [hpt]
    · left
      rw [← hpk]
      simp only [Function.comp_apply, hpt, if_neg]
      exact List.mem_map_of_mem Prod.fst hp
  · rw [if_neg hc, List.map_append] at hk
    rcases List.mem_append.mp hk with h | h
    · exact Or.inl h
    · right; simpa using h

lemma buildAnswersMap_keys (rows : List (Nat × TagInfo)) :
    ∀ k ∈ (buildAnswersMap rows).map Prod.fst, k ∈ rows.map Prod.fst := by
  have hgen : ∀ (rows : List (Nat × TagInfo)) (acc : List (Nat × List TagInfo)),
      ∀ k ∈ ((rows.foldl (fun m row => answersInsert m row.1 row.2) acc).map
        Prod.fst), k ∈ acc.map Prod.fst ∨ k ∈ rows.map Prod.fst := by
    intro rows
    induction rows with
    | nil => intro acc k hk; exact Or.inl hk
    | cons row rows ih =>
      intro acc k hk
      rw [List.foldl_cons] at hk
      rcases ih (answersInsert acc row.1 row.2) k hk with h | h
      · rcases answersInsert_keys acc row.1 row.2 k h with h2 | h2
        · exact Or.inl h2
        · right; simp [h2]
      · right; simp [h]
  intro k hk
  rcases hgen rows [] k hk with h | h
  · simp at h
  · exact h

lemma answersGet_eq_nil {m : List (Nat × List TagInfo)} {tid : Nat}
    (h : tid ∉ m.map Prod.fst) : answersGet m tid = [] := by
  unfold answersGet
  rw [List.find?_eq_none.mpr, Option.map_none', Option.getD_none]
  intro x hx
  simp only [decide_eq_true_eq]
  intro hxt
  exact h (hxt ▸ List.mem_map_of_mem Prod.fst hx)

lemma fetchTagsAnswers_take (tagsDB : Nat → List TagInfo) (ids : List Nat) :
    fetchTagsAnswers tagsDB ids
      = (ids.take 1000).flatMap (fun tid => (tagsDB tid).map (fun r => (tid, r))) := by
  have hbs : batchStarts = [0] := by decide
  rw [fetchTagsAnswers, hbs]
  show ((ids.drop 0).take BATCH_SIZE).flatMap _ ++ [].flatMap _ = _
  rw [List.drop_zero]
  simp [BATCH_SIZE]

lemma fetchTagsAnswers_keys (tagsDB : Nat → List TagInfo) (ids : List Nat) :
    ∀ k ∈ (fetchTagsAnswers tagsDB ids).map Prod.fst, k ∈ ids.take 1000 := by
  intro k hk
  rw [fetchTagsAnswers_take] at hk
  rcases List.mem_map.mp hk with ⟨row, hrow, hrk⟩
  rcases List.mem_flatMap.mp hrow with ⟨tid, htid, hr⟩
  rcases List.mem_map.mp hr with ⟨r, _, hrr⟩
  rw [← hrk, ← hrr]
  exact htid

/-- A token with an empty tag list contributes no per-token feature structure
and only tokenset-derived `ana` references. -/
lemma renderToken_no_tags (wl : List String) (defs : List (String × List String))
    (tm : List (String × String)) (t : Token) (ht : t.tags = []) :
    (renderToken wl defs tm t).2 = [] ∧
    (∀ xid lem wty anaA txt sA eA,
      (renderToken wl defs tm t).1 = RElem.wEl xid lem wty anaA txt sA eA →
      anaA = (if tokensetAnaRefs defs t ≠ []
        then some (joinSpace (tokensetAnaRefs defs t)) else none)) := by
  have hv : validateTokenTags wl t.tags = [] := by rw [ht]; rfl
  constructor
  · rw [renderToken_snd]
    unfold tokenFS
    cases h : classify (displayedText t) t.sppos <;> simp [h, hv]
  · intro xid lem wty anaA txt sA eA hel
    unfold renderToken at hel
    cases h : classify (displayedText t) t.sppos with
    | pause dd => simp [h] at hel
    | incident dd => simp [h] at hel
    | unclear => simp [h] at hel
    | punctuationMark => simp [h] at hel
    | word =>
      simp only [h, hv, ne_eq, not_true_eq_false, if_false, List.nil_append,
        RElem.wEl.injEq] at hel
      obtain ⟨_, _, _, hana, _, _, _⟩ := hel
      rw [← hana]

set_option maxRecDepth 8192 in
/-- C10: the answers fetch iterates over the constant `range(0, 1000,
BATCH_SIZE)`, not over the full token-id list, so only the first 1000 token
ids are ever queried; a token at position 1000 or later (token ids being
distinct) is merged with an empty tag list, and therefore gets no per-token
feature structure and only tokenset-derived `ana` references in the assembled
document, regardless of what the database holds for it. -/
theorem batched_fetch_truncates (tagsDB : Nat → List TagInfo)
    (tokens : List Token) (d : Token) (i : Nat)
    (hnodup : (tokens.map Token.token_id).Nodup)
    (hge : 1000 ≤ i) (hlt : i < tokens.length) :
    fetchTagsAnswers tagsDB (tokens.map Token.token_id)
      = ((tokens.map Token.token_id).take 1000).flatMap
          (fun tid => (tagsDB tid).map (fun r => (tid, r))) ∧
    ((mergeTags tagsDB tokens).getD i d).tags = [] ∧
    (∀ (wl : List String) (defs : List (String × List String))
        (tm : List (String × String)),
      (renderToken wl defs tm ((mergeTags tagsDB tokens).getD i d)).2 = [] ∧
      (∀ xid lem wty anaA txt sA eA,
        (renderToken wl defs tm ((mergeTags tagsDB tokens).getD i d)).1
            = RElem.wEl xid lem wty anaA txt sA eA →
        anaA = (if tokensetAnaRefs defs ((mergeTags tagsDB tokens).getD i d) ≠ []
          then some (joinSpace
            (tokensetAnaRefs defs ((mergeTags tagsDB tokens).getD i d)))
          else none))) := by
  have hids : (tokens.map Token.token_id).length = tokens.length :=
    List.length_map _ _
  have hti : ∀ {j : Nat} (hj : j < tokens.length),
      ((mergeTags tagsDB tokens).getD j d).tags
        = answersGet (buildAnswersMap (fetchTagsAnswers tagsDB
            (tokens.map Token.token_id))) tokens[j].token_id := by
    intro j hj
    unfold mergeTags
    rw [List.getD_eq_getElem?_getD, List.getElem?_map, List.getElem?_eq_getElem hj]
    rfl
  have htags : answersGet
      (buildAnswersMap (fetchTagsAnswers tagsDB (tokens.map Token.token_id)))
      tokens[i].token_id = [] := by
    apply answersGet_eq_nil
    intro hmem
    have h1 := buildAnswersMap_keys _ _ hmem
    have h2 := fetchTagsAnswers_keys tagsDB (tokens.map Token.token_id) _ h1
    have hsplit : (tokens.map Token.token_id).take 1000
        ++ (tokens.map Token.token_id).drop 1000 = tokens.map Token.token_id :=
      List.take_append_drop 1000 (tokens.map Token.token_id)
    have hdisj := List.disjoint_take_drop (m := 1000) (n := 1000) hnodup le_rfl
    have hlen : i < (tokens.map Token.token_id).length := by
      rw [List.length_map]
      omega
    have hdropMem : tokens[i].token_id ∈ (tokens.map Token.token_id).drop 1000 := by
      have hidx : tokens[i].token_id = (tokens.map Token.token_id)[i] := by
        rw [List.getElem_map]
      rw [hidx]
      have hq : (List.drop 1000 (tokens.map Token.token_id))[i - 1000]?
          = (tokens.map Token.token_id)[i]? := by
        rw [List.getElem?_drop]
        congr 1
        omega
      have hgot : (tokens.map Token.token_id)[i]?
          = some ((tokens.map Token.token_id)[i]) :=
        List.getElem?_eq_getElem hlen
      exact List.getElem?_mem (hq.trans hgot)
    exact hdisj h2 hdropMem
  have htagsEq : ((mergeTags tagsDB tokens).getD i d).tags = [] := by
    rw [hti hlt]
    exact htags
  exact ⟨fetchTagsAnswers_take tagsDB _, htagsEq,
    fun wl defs tm => renderToken_no_tags wl defs tm _ htagsEq⟩

/-- A 1001-token transcript with distinct token ids `0..1000`. -/
def c10Tokens : List Token := (List.range 1001).map (fun i => sampleToken i 1)

/-- A database holding one tag row for every token id. -/
def c10DB : Nat → List TagInfo := fun _ => [⟨none, some "tag", none, none, none⟩]

/-- Witness for C10: on a 1001-token transcript where the database has a tag
row for every token, the token at position 1000 is still merged with an empty
tag list. -/
theorem batched_fetch_truncates_witness :
    ((mergeTags c10DB c10Tokens).getD 1000 (sampleToken 0 1)).tags = [] := by
  have hids : c10Tokens.map Token.token_id = List.range 1001 := by
    unfold c10Tokens
    rw [List.map_map, show (Token.token_id ∘ fun i => sampleToken i 1) = id from rfl,
      List.map_id]
  have hlen : c10Tokens.length = 1001 := by
    unfold c10Tokens
    rw [List.length_map, List.length_range]
  exact (batched_fetch_truncates c10DB c10Tokens (sampleToken 0 1) 1000
    (by rw [hids]; exact List.nodup_range 1001) le_rfl (by omega)).2.1

/-! ## C6: timeline reference round-trip -/

/-- The timeline entries that survive the flattener's truthiness guard. -/
def timelineFiltered (tokens : List Token) : List (String × String) :=
  (timelinePairs tokens).filter (fun p => p.1 ≠ "" ∧ p.2 ≠ "")

lemma timeToIdPairs_keys (tokens : List Token) :
    (timeToIdPairs tokens).map Prod.fst = sortedTimes tokens := by
  rw [timeToIdPairs, List.map_map,
    show (Prod.fst ∘ fun p : Nat × String => (p.2, mkTlId p.1)) = Prod.snd from rfl]
  exact List.enum_map_snd _

lemma timeToId_eq (tokens : List Token) : timeToId tokens = timeToIdPairs tokens :=
  dictOf_eq_self _ (by rw [timeToIdPairs_keys]; exact sortedTimes_nodup tokens)

lemma timelinePairs_keys (tokens : List Token) :
    (timelinePairs tokens).map Prod.fst
      = (List.range (sortedTimes tokens).length).map mkTlId := by
  rw [timelinePairs, List.map_map,
    show (Prod.fst ∘ fun p : Nat × String => (mkTlId p.1, p.2))
      = mkTlId ∘ Prod.fst from rfl,
    ← List.map_map, List.enum_map_fst]

lemma timelinePairs_keys_nodup (tokens : List Token) :
    ((timelinePairs tokens).map Prod.fst).Nodup := by
  rw [timelinePairs_keys]
  exact List.Nodup.map (fun i j h => mkTlId_inj i j h) (List.nodup_range _)

lemma timelineFiltered_keys_nodup (tokens : List Token) :
    ((timelineFiltered tokens).map Prod.fst).Nodup := by
  have hsub : List.Sublist ((timelineFiltered tokens).map Prod.fst)
      ((timelinePairs tokens).map Prod.fst) :=
    (List.filter_sublist _).map Prod.fst
  exact List.Nodup.sublist hsub (timelinePairs_keys_nodup tokens)

lemma timelineFiltered_lookup (tokens : List Token) {i : Nat} {st : String}
    (hi : i < (sortedTimes tokens).length) (hst : (sortedTimes tokens)[i] = st)
    (hne : st ≠ "") :
    dget? (dictOf (timelineFiltered tokens)) (mkTlId i) = some st := by
  rw [dictOf_eq_self _ (timelineFiltered_keys_nodup tokens)]
  refine dget?_of_mem_nodup ?_ (timelineFiltered_keys_nodup tokens)
  refine List.mem_filter.mpr ⟨?_, ?_⟩
  · refine List.mem_map.mpr ⟨(i, st), ?_, rfl⟩
    have he := List.getElem_enum (sortedTimes tokens) i (by simpa using hi)
    rw [hst] at he
    rw [← he]
    exact List.getElem_mem _
  · simp [mkTlId_ne_empty i, hne]

lemma timelineFiltered_empty_key (tokens : List Token) :
    dget? (dictOf (timelineFiltered tokens)) "" = none := by
  rw [dictOf_eq_self _ (timelineFiltered_keys_nodup tokens)]
  apply dget?_eq_none
  intro hmem
  have hmem2 : ("" : String) ∈ (timelinePairs tokens).map Prod.fst :=
    ((List.filter_sublist _).map Prod.fst).subset hmem
  rw [timelinePairs_keys] at hmem2
  rcases List.mem_map.mp hmem2 with ⟨j, _, hj⟩
  exact mkTlId_ne_empty j hj

lemma timeToId_lookup (tokens : List Token) {st : String}
    (hst : st ∈ sortedTimes tokens) :
    ∃ i, ∃ hi : i < (sortedTimes tokens).length,
      (sortedTimes tokens)[i] = st ∧
        dget? (timeToId tokens) st = some (mkTlId i) := by
  obtain ⟨i, hi, hgi⟩ := List.mem_iff_getElem.mp hst
  refine ⟨i, hi, hgi, ?_⟩
  rw [timeToId_eq]
  refine dget?_of_mem_nodup ?_
    (by rw [timeToIdPairs_keys]; exact sortedTimes_nodup tokens)
  refine List.mem_map.mpr ⟨(i, st), ?_, rfl⟩
  have he := List.getElem_enum (sortedTimes tokens) i (by simpa using hi)
  rw [hgi] at he
  rw [← he]
  exact List.getElem_mem _

/-- A present timestamp resolves through `time_to_id` to a timeline id, and
that id resolves through the flattener's timeline map back to the verbatim
timestamp. -/
lemma timeline_roundtrip (tokens : List Token) {st : String}
    (hst : st ∈ sortedTimes tokens) (hne : st ≠ "") :
    dgetD (dictOf (timelineFiltered tokens))
      (pyDropChar ("#" ++ dgetD (timeToId tokens) st "") '#') "-" = st := by
  obtain ⟨i, hi, hgi, hlook⟩ := timeToId_lookup tokens hst
  have h1 : dgetD (timeToId tokens) st "" = mkTlId i := by
    unfold dgetD
    rw [hlook]
    rfl
  rw [h1, pyDropChar_hash _ (mkTlId_no_hash i)]
  unfold dgetD
  rw [timelineFiltered_lookup tokens hi hgi hne]
  rfl

/-- A missing timestamp attribute resolves to the `"-"` sentinel. -/
lemma timeline_resolve_empty (tokens : List Token) :
    dgetD (dictOf (timelineFiltered tokens)) (pyDropChar "" '#') "-" = "-" := by
  have hpd : pyDropChar "" '#' = "" := by decide
  rw [hpd]
  unfold dgetD
  rw [timelineFiltered_empty_key]
  rfl

/-- The value of `flattenWPc` on non-empty stripped text, field by field. -/
lemma flattenWPc_eq (token_map : List (String × (String × String)))
    (timeline_map : List (String × String)) (lem wty anaA : Option String)
    (text : String) (sA eA : Option String) (hne : pyStrip text ≠ "") :
    flattenWPc token_map timeline_map lem wty anaA text sA eA
      = some ⟨pyStrip text,
          (if (lem.getD "-") = " " then "-" else lem.getD "-"),
          wty.getD "-",
          (if resolveBucket token_map "dioe_tokenset_tags" anaA ≠ []
            then joinSep "|" (resolveBucket token_map "dioe_tokenset_tags" anaA)
            else "-"),
          (if resolveBucket token_map "dioe_tags" anaA ≠ []
            then joinSep "|" (resolveBucket token_map "dioe_tags" anaA)
            else "-"),
          dgetD timeline_map (pyDropChar (sA.getD "") '#') "-",
          dgetD timeline_map (pyDropChar (eA.getD "") '#') "-"⟩ := by
  unfold flattenWPc
  rw [if_neg hne]

lemma lemma_clean_of_ne {lem : Option String} (h : lem ≠ some " ") :
    (if (lem.getD "-") = " " then "-" else lem.getD "-") = lem.getD "-" := by
  cases lem with
  | none =>
    rw [if_neg]
    decide
  | some s =>
    have hs : s ≠ " " := fun he => h (he ▸ rfl)
    rw [Option.getD_some, if_neg hs]

/-- C6 (amended): flattening a freshly assembled document reproduces, for
every token element, the construction tuple — the element appears in some
assembled utterance; a `<w>` with non-empty text and a lemma attribute other
than the bare space yields exactly one row carrying the element text, the
`lemma`/`type` attributes (or `"-"` when absent), and the token's original
verbatim `start`/`end` timestamps (or `"-"` when absent); a `<pc>` with
non-empty stripped text yields one row carrying its whitespace-trimmed text
(`pc` text is written untrimmed but read back trimmed), `"-"` for lemma and
pos, and the original verbatim timestamps.  Timestamps are assumed non-empty
strings, as every real timestamp is. -/
theorem flatten_reproduces_tuples (wl : List String)
    (defs : List (String × List String)) (data : List Token) (doc : Document)
    (hdoc : generateTranscript wl defs data = some doc) (tok : Token)
    (htok : tok ∈ data) (hstne : tok.start_time ≠ some "")
    (hendne : tok.end_time ≠ some "") :
    (∃ u ∈ doc.utterances,
      (renderToken wl defs (timeToId (sortTokens data)) tok).1 ∈ u.elems) ∧
    (∀ xid lem wty anaA txt sA eA,
      (renderToken wl defs (timeToId (sortTokens data)) tok).1
          = RElem.wEl xid lem wty anaA txt sA eA →
      txt ≠ "" → lem ≠ some " " →
      ∃ r, flattenElem (docTokenMap doc) (docTimelineMap doc)
          (RElem.wEl xid lem wty anaA txt sA eA) = some (VLine.row r) ∧
        r.word = txt ∧ r.lemmaCol = lem.getD "-" ∧ r.posCol = wty.getD "-" ∧
        r.startCol = tok.start_time.getD "-" ∧
        r.endCol = tok.end_time.getD "-") ∧
    (∀ xid txt sA eA,
      (renderToken wl defs (timeToId (sortTokens data)) tok).1
          = RElem.pcEl xid txt sA eA →
      pyStrip txt ≠ "" →
      ∃ r, flattenElem (docTokenMap doc) (docTimelineMap doc)
          (RElem.pcEl xid txt sA eA) = some (VLine.row r) ∧
        r.word = pyStrip txt ∧ r.lemmaCol = "-" ∧ r.posCol = "-" ∧
        r.startCol = tok.start_time.getD "-" ∧
        r.endCol = tok.end_time.getD "-") := by
  cases data with
  | nil => simp at htok
  | cons t0 rest =>
    simp only [generateTranscript, Option.some.injEq] at hdoc
    have htl : doc.timeline = timelinePairs (sortTokens (t0 :: rest)) := by
      rw [← hdoc]
    have huts : doc.utterances
        = ((segment (sortTokens (t0 :: rest))).map
            (renderUtterance wl defs (timeToId (sortTokens (t0 :: rest))))).map
          Prod.fst := by
      rw [← hdoc]
    have hdtm : docTimelineMap doc
        = dictOf (timelineFiltered (sortTokens (t0 :: rest))) := by
      rw [docTimelineMap, htl]
      rfl
    have htokS : tok ∈ sortTokens (t0 :: rest) :=
      (pySorted_perm tokenSortLE (t0 :: rest)).mem_iff.mpr htok
    have hres : ∀ (o : Option String), o ≠ some "" →
        (∀ st, o = some st → st ∈ sortedTimes (sortTokens (t0 :: rest))) →
        dgetD (dictOf (timelineFiltered (sortTokens (t0 :: rest))))
          (pyDropChar ((mkTimeAttr (timeToId (sortTokens (t0 :: rest))) o).getD "")
            '#') "-"
          = o.getD "-" := by
      intro o hone homem
      cases o with
      | none => exact timeline_resolve_empty _
      | some st =>
        have hstm := homem st rfl
        have hstne2 : st ≠ "" := fun he => hone (he ▸ rfl)
        exact timeline_roundtrip _ hstm hstne2
    refine ⟨?_, ?_, ?_⟩
    · have htokFl : tok ∈ ((segment (sortTokens (t0 :: rest))).map
          Utterance.tokens).flatten := by
        rw [segment_join]
        exact htokS
      rcases List.mem_flatten.mp htokFl with ⟨tl, htl2, htok2⟩
      rcases List.mem_map.mp htl2 with ⟨u, hu, rfl⟩
      refine ⟨(renderUtterance wl defs
        (timeToId (sortTokens (t0 :: rest))) u).1, ?_, ?_⟩
      · rw [huts]
        exact List.mem_map_of_mem Prod.fst (List.mem_map_of_mem _ hu)
      · show _ ∈ (u.tokens.map (renderToken wl defs
          (timeToId (sortTokens (t0 :: rest))))).map Prod.fst
        exact List.mem_map_of_mem Prod.fst (List.mem_map_of_mem _ htok2)
    · intro xid lem wty anaA txt sA eA hel hTxt hLem
      unfold renderToken at hel
      cases hcl : classify (displayedText tok) tok.sppos with
      | pause dd => simp [hcl] at hel
      | incident dd => simp [hcl] at hel
      | unclear => simp [hcl] at hel
      | punctuationMark => simp [hcl] at hel
      | word =>
        simp only [hcl, RElem.wEl.injEq] at hel
        obtain ⟨hxid, hlem, hwty, hana, htxt, hsA, heA⟩ := hel
        have htxt2 : pyStrip txt = txt := by rw [← htxt, pyStrip_idem]
        have hword : pyStrip txt ≠ "" := by rw [htxt2]; exact hTxt
        refine ⟨⟨pyStrip txt,
            (if (lem.getD "-") = " " then "-" else lem.getD "-"),
            wty.getD "-",
            (if resolveBucket (docTokenMap doc) "dioe_tokenset_tags" anaA ≠ []
              then joinSep "|"
                (resolveBucket (docTokenMap doc) "dioe_tokenset_tags" anaA)
              else "-"),
            (if resolveBucket (docTokenMap doc) "dioe_tags" anaA ≠ []
              then joinSep "|" (resolveBucket (docTokenMap doc) "dioe_tags" anaA)
              else "-"),
            dgetD (docTimelineMap doc) (pyDropChar (sA.getD "") '#') "-",
            dgetD (docTimelineMap doc) (pyDropChar (eA.getD "") '#') "-"⟩,
          ?_, htxt2, lemma_clean_of_ne hLem, rfl, ?_, ?_⟩
        · show (flattenWPc (docTokenMap doc) (docTimelineMap doc)
            lem wty anaA txt sA eA).map VLine.row = _
          rw [flattenWPc_eq _ _ lem wty anaA txt sA eA hword]
          rfl
        · rw [hdtm, ← hsA]
          exact hres tok.start_time hstne
            (fun st h => mem_sortedTimes.mpr ⟨tok, htokS, Or.inl h⟩)
        · rw [hdtm, ← heA]
          exact hres tok.end_time hendne
            (fun st h => mem_sortedTimes.mpr ⟨tok, htokS, Or.inr h⟩)
    · intro xid txt sA eA hel hTxt
      unfold renderToken at hel
      cases hcl : classify (displayedText tok) tok.sppos with
      | pause dd => simp [hcl] at hel
      | incident dd => simp [hcl] at hel
      | unclear => simp [hcl] at hel
      | word => simp [hcl] at hel
      | punctuationMark =>
        simp only [hcl, RElem.pcEl.injEq] at hel
        obtain ⟨hxid, htxt, hsA, heA⟩ := hel
        have hlemcol : (if ((none : Option String).getD "-") = " "
            then "-" else (none : Option String).getD "-") = "-" := by decide
        refine ⟨⟨pyStrip txt,
            (if ((none : Option String).getD "-") = " "
              then "-" else (none : Option String).getD "-"),
            (none : Option String).getD "-",
            (if resolveBucket (docTokenMap doc) "dioe_tokenset_tags" none ≠ []
              then joinSep "|"
                (resolveBucket (docTokenMap doc) "dioe_tokenset_tags" none)
              else "-"),
            (if resolveBucket (docTokenMap doc) "dioe_tags" none ≠ []
              then joinSep "|" (resolveBucket (docTokenMap doc) "dioe_tags" none)
              else "-"),
            dgetD (docTimelineMap doc) (pyDropChar (sA.getD "") '#') "-",
            dgetD (docTimelineMap doc) (pyDropChar (eA.getD "") '#') "-"⟩,
          ?_, rfl, hlemcol, rfl, ?_, ?_⟩
        · show (flattenWPc (docTokenMap doc) (docTimelineMap doc)
            none none none txt sA eA).map VLine.row = _
          rw [flattenWPc_eq _ _ none none none txt sA eA hTxt]
          rfl
        · rw [hdtm, ← hsA]
          exact hres tok.start_time hstne
            (fun st h => mem_sortedTimes.mpr ⟨tok, htokS, Or.inl h⟩)
        · rw [hdtm, ← heA]
          exact hres tok.end_time hendne
            (fun st h => mem_sortedTimes.mpr ⟨tok, htokS, Or.inr h⟩)

/-- A `PUNCT` token whose displayed text carries a trailing space. -/
def c6PcToken : Token :=
  ⟨1, 1, none, some ". ", none, some "PUNCT", [], none, none, none, [], []⟩

/-- Counterexample to C6 as stated: the assembled `<pc>` element's text is
`". "` (written untrimmed), but the flattener emits the row text `"."` — the
rendered element text is not reproduced verbatim. -/
theorem flatten_roundtrip_counterexample :
    (generateTranscript [] [] [c6PcToken]).map
        (fun d => d.utterances.map RUtterance.elems)
      = some [[RElem.pcEl "t1" ". " none none]] ∧
    (generateTranscript [] [] [c6PcToken]).map (flattenDoc [])
      = some [VLine.uline "spk_1" "UNK" "UNK" "UNK" "" "",
          VLine.row ⟨".", "-", "-", "-", "-", "-", "-"⟩, VLine.uClose] ∧
    (". " : String) ≠ "." := by
  decide

/-- A word token with lemma, part-of-speech and timestamps. -/
def c6Tok : Token :=
  ⟨7, 1, none, some "hello", none, some "ADJ", ["lemx"], some "0:00:01",
    some "0:00:02", none, [], []⟩

/-- The document assembled for the C6 witness scenario. -/
def c6Doc : Document := (generateTranscript [] [] [c6Tok]).getD ⟨"", [], [], []⟩

/-- The element rendered for the C6 witness token. -/
def c6El : RElem := (renderToken [] [] (timeToId (sortTokens [c6Tok])) c6Tok).1

/-- Witness for C6: the word `hello` with lemma `lemx`, pos `ADJ` and
timestamps `0:00:01`/`0:00:02` flattens back to exactly that tuple. -/
theorem flatten_reproduces_tuples_witness :
    ∃ r, flattenElem (docTokenMap c6Doc) (docTimelineMap c6Doc) c6El
        = some (VLine.row r) ∧
      r.word = "hello" ∧ r.lemmaCol = "lemx" ∧ r.posCol = "ADJ" ∧
      r.startCol = "0:00:01" ∧ r.endCol = "0:00:02" := by
  have h := flatten_reproduces_tuples [] [] [c6Tok] c6Doc (by decide) c6Tok
    (by decide) (by decide) (by decide)
  have hel : c6El = RElem.wEl "t7" (some "lemx") (some "ADJ") none "hello"
      (some "#TL_0") (some "#TL_1") := by decide
  obtain ⟨r, hr, hw, hl, hp, hs, he⟩ := h.2.1 "t7" (some "lemx") (some "ADJ")
    none "hello" (some "#TL_0") (some "#TL_1") hel (by decide) (by decide)
  refine ⟨r, ?_, hw, ?_, ?_, ?_, ?_⟩
  · rw [hel]
    exact hr
  · rw [hl]
    decide
  · rw [hp]
    decide
  · rw [hs]
    decide
  · rw [he]
    decide

end DioeTei
